import Mathlib

/-!
Verification of the order-validation / aggregation pipeline.

The development shallowly embeds the repository's Python sources:

* `src/utils/processing.py` — `process_order` (the order validator);
* `src/worker/worker.py`    — the consumer loop's per-message processing and
  the aggregate mutations (`recordOrder`);
* `src/web/main.py`         — `get_dates_for_period` and the `/top-users`
  endpoint (`get_top_users`).

Numbers are modelled by `ℚ` (Python's binary floats are idealised as exact
rationals, so the `0.01` tolerance literal is the rational `1/100`); Python
values occurring in parsed JSON are modelled by the inductive type `PyVal`;
Python exceptions are modelled by `Except Unit`.  Message strings produced by
Python f-strings are rebuilt by explicit concatenation.
-/

/-- A Python value as it can occur in a `json.loads` result: `None`, `bool`
(kept separate from `int` because `isinstance(True, int)` holds in Python),
`int`, `float`, `str`, `list`, `dict` (string keys, in insertion order). -/
inductive PyVal : Type where
  | none : PyVal
  | bool : Bool → PyVal
  | int : Int → PyVal
  | float : ℚ → PyVal
  | str : String → PyVal
  | list : List PyVal → PyVal
  | dict : List (String × PyVal) → PyVal

/-- A Python dict with string keys (association list, first match wins). -/
abbrev PyDict := List (String × PyVal)

/-- `d.get(k)` / `d[k]` lookup: first binding of `k`. -/
def pyLookup (d : PyDict) (k : String) : Option PyVal :=
  match d with
  | [] => Option.none
  | (k', v) :: rest => if k' = k then some v else pyLookup rest k

/-- `d.get(k, default)`. -/
def pyGetD (d : PyDict) (k : String) (default : PyVal) : PyVal :=
  (pyLookup d k).getD default

/-- `isinstance(v, str)`. -/
def isStr : PyVal → Bool
  | .str _ => true
  | _ => false

/-- `isinstance(v, (int, float))` — Python `bool` is a subclass of `int`,
so booleans pass this check. -/
def isNum : PyVal → Bool
  | .int _ => true
  | .float _ => true
  | .bool _ => true
  | _ => false

/-- Numeric value of a Python number (`float(v)` / use in arithmetic);
`True` counts as 1 and `False` as 0. -/
def toNum : PyVal → Option ℚ
  | .int n => some (n : ℚ)
  | .float q => some q
  | .bool b => some (if b then 1 else 0)
  | _ => Option.none

/-- `repr(type(v))`, as printed inside the invalid-type error message. -/
def typeName : PyVal → String
  | .none => "<class \x27NoneType\x27>"
  | .bool _ => "<class \x27bool\x27>"
  | .int _ => "<class \x27int\x27>"
  | .float _ => "<class \x27float\x27>"
  | .str _ => "<class \x27str\x27>"
  | .list _ => "<class \x27list\x27>"
  | .dict _ => "<class \x27dict\x27>"

/-- Left-pad the decimal representation of `n` with zeros to width `w`. -/
def padNat (w : Nat) (n : Nat) : String :=
  let s := toString n
  String.mk (List.replicate (w - s.length) '0') ++ s

/-- Round a rational to the nearest integer, ties to even
(the rounding used by Python's float formatting). -/
def roundHalfEven (x : ℚ) : Int :=
  let f := Int.floor x
  let r := x - (f : ℚ)
  if r < 1/2 then f
  else if r > 1/2 then f + 1
  else if f % 2 = 0 then f else f + 1

/-- Python's `f"{x:.2f}"`: fixed two decimal places. -/
def fmt2 (x : ℚ) : String :=
  let n := roundHalfEven (x * 100)
  let sign := if n < 0 then "-" else ""
  let a := n.natAbs
  sign ++ toString (a / 100) ++ "." ++ padNat 2 (a % 100)

/-- `f"'{field}'"` — the field name in single quotes, as it appears in every
required-field error message. -/
def quoted (field : String) : String := "\x27" ++ field ++ "\x27"

/-- Error message for a missing required field. -/
def missingMsg (field : String) : String :=
  "Missing required field: " ++ quoted field

/-- Error message for an empty (None or blank-string) required field. -/
def emptyMsg (field : String) : String :=
  "Empty required field: " ++ quoted field

/-- Error message for a required field of the wrong type;
`expected` is the repr of the expected type(s). -/
def invalidTypeMsg (field expected : String) (v : PyVal) : String :=
  "Invalid type for " ++ quoted field ++ ": expected " ++ expected ++
    ", got " ++ typeName v

/-- Python `str.strip()` whitespace: the code points CPython's
`_PyUnicode_IsWhitespace` accepts — ASCII `\t \n \v \f \r` and space, the
separators U+001C–U+001F, NEL (U+0085), NBSP (U+00A0), and the Unicode
space separators (U+1680, U+2000–U+200A, U+2028, U+2029, U+202F, U+205F,
U+3000). -/
def isWS (c : Char) : Bool :=
  [0x09, 0x0A, 0x0B, 0x0C, 0x0D, 0x1C, 0x1D, 0x1E, 0x1F, 0x20, 0x85, 0xA0,
   0x1680, 0x2000, 0x2001, 0x2002, 0x2003, 0x2004, 0x2005, 0x2006, 0x2007,
   0x2008, 0x2009, 0x200A, 0x2028, 0x2029, 0x202F, 0x205F,
   0x3000].contains c.toNat

/-- `isinstance(v, str) and v.strip() == ""`: the string strips to empty
exactly when all of its characters are whitespace. -/
def isBlankStr : PyVal → Bool
  | .str s => s.data.all isWS
  | _ => false

/-- `v is None`. -/
def isNone : PyVal → Bool
  | .none => true
  | _ => false

/-- One pass of the required-field loop body for a single field:
`None` if the field is fine, `some msg` for the single error it contributes
(the three branches are an `if`/`elif`/`elif` chain, so at most one fires). -/
def checkField (d : PyDict) (field : String) (expectedTy : PyVal → Bool)
    (expectedRepr : String) : Option String :=
  match pyLookup d field with
  | Option.none => some (missingMsg field)
  | some v =>
    if isNone v ∨ isBlankStr v then
      some (emptyMsg field)
    else if ¬ expectedTy v then
      some (invalidTypeMsg field expectedRepr v)
    else Option.none

/-- The `required_fields` table of `process_order`:
field name, `isinstance` check, repr of the expected type(s). -/
def requiredFields : List (String × (PyVal → Bool) × String) :=
  [("user_id", isStr, "<class \x27str\x27>"),
   ("order_id", isStr, "<class \x27str\x27>"),
   ("order_value", isNum, "(<class \x27int\x27>, <class \x27float\x27>)")]

/-- The `errors` list accumulated by the required-field loop. -/
def fieldErrors (d : PyDict) : List String :=
  requiredFields.foldl
    (fun acc f => acc ++ (checkField d f.1 f.2.1 f.2.2).toList) []

/-- `item.get("quantity", 0) * item.get("price_per_unit", 0.0)` for one
element of `items`: `.error` when Python would raise while computing or
summing the product (non-dict element, or a product whose operands are not
both numeric — such a product is either a `TypeError` at `*` or, for the
string/list-repetition cases, a `TypeError` when `sum` adds it to `0`). -/
def itemTerm : PyVal → Except Unit ℚ
  | .dict it =>
    match toNum (pyGetD it "quantity" (.int 0)),
          toNum (pyGetD it "price_per_unit" (.float 0)) with
    | some q, some p => .ok (q * p)
    | _, _ => .error ()
  | _ => .error ()

/-- `sum(item.get("quantity", 0) * item.get("price_per_unit", 0.0) for item
in items)`.  Iterating a non-list raises, except for the empty string and the
empty dict, which iterate zero times and leave the sum at `0`. -/
def sumItems : PyVal → Except Unit ℚ
  | .list xs => xs.foldlM (fun acc it => (itemTerm it).map (acc + ·)) 0
  | .str s => if s = "" then .ok 0 else .error ()
  | .dict [] => .ok 0
  | _ => .error ()

/-- The value-mismatch message (both amounts formatted to two decimals). -/
def mismatchMsg (reported computed : ℚ) : String :=
  "Order value mismatch: reported $" ++ fmt2 reported ++
    ", computed $" ++ fmt2 computed

/-- Result of `process_order`: the INVALID report (the `order_id` field is
whatever `order_data.get("order_id", "Unknown")` returned) or the VALID
summary.  The summary's `order_id`/`user_id` are `String` because the
required-field check guarantees they are `str` before the summary is built. -/
inductive PoResult : Type where
  | invalid : PyVal → List String → PoResult
  | valid : String → String → ℚ → PyVal → ℚ → PoResult

/-- Extract the string of a `PyVal.str` (with junk default). -/
def strOf : PyVal → String
  | .str s => s
  | _ => ""

/-- Shallow embedding of `process_order(order_data, correct_value)`
(src/utils/processing.py).  `.error ()` models a raised exception. -/
def process_order (d : PyDict) (correct_value : Bool) : Except Unit PoResult :=
  if fieldErrors d ≠ [] then
    .ok (.invalid (pyGetD d "order_id" (.str "Unknown")) (fieldErrors d))
  else
    match sumItems (pyGetD d "items" (.list [])) with
    | .error e => .error e
    | .ok computed_total =>
      match toNum ((pyLookup d "order_value").getD PyVal.none) with
      | Option.none => .error ()
      | some reported =>
        if |computed_total - reported| > 1/100 then
          if correct_value then
            .ok (.valid (strOf (pyGetD d "order_id" PyVal.none))
                  (strOf (pyGetD d "user_id" PyVal.none))
                  computed_total
                  (pyGetD d "order_timestamp" PyVal.none)
                  computed_total)
          else
            .ok (.invalid (pyGetD d "order_id" PyVal.none)
                  [mismatchMsg reported computed_total])
        else
          .ok (.valid (strOf (pyGetD d "order_id" PyVal.none))
                (strOf (pyGetD d "user_id" PyVal.none))
                reported
                (pyGetD d "order_timestamp" PyVal.none)
                computed_total)

/-- `msg` mentions field `f`: the quoted field name occurs inside `msg`. -/
def namesField (msg f : String) : Prop := (quoted f).data <:+: msg.data

/-- `True` iff the `Except` is an `.ok`. -/
def isOkE {ε α : Type} : Except ε α → Bool
  | .ok _ => true
  | .error _ => false

/-- Every item of `items` (when `items` is present it must be a list) is a
dict whose `quantity` and `price_per_unit`, when present, are numeric.  Under
this condition computing the total cannot raise. -/
def itemOk : PyVal → Bool
  | .dict it =>
      isNum (pyGetD it "quantity" (.int 0)) &&
      isNum (pyGetD it "price_per_unit" (.float 0))
  | _ => false

/-- The `items` value of the order is a list of well-formed items. -/
def itemsOk (d : PyDict) : Bool :=
  match pyGetD d "items" (.list []) with
  | .list xs => xs.all itemOk
  | _ => false

lemma namesField_missingMsg (f : String) : namesField (missingMsg f) f :=
  List.IsSuffix.isInfix ⟨"Missing required field: ".data, by
    simp [missingMsg, String.data_append]⟩

lemma namesField_emptyMsg (f : String) : namesField (emptyMsg f) f :=
  List.IsSuffix.isInfix ⟨"Empty required field: ".data, by
    simp [emptyMsg, String.data_append]⟩

lemma namesField_invalidTypeMsg (f r : String) (v : PyVal) :
    namesField (invalidTypeMsg f r v) f :=
  ⟨"Invalid type for ".data,
   (": expected " ++ r ++ ", got " ++ typeName v).data, by
    simp [invalidTypeMsg, String.data_append]⟩

lemma checkField_namesField {d : PyDict} {f r e : String} {ty : PyVal → Bool}
    (h : checkField d f ty r = some e) : namesField e f := by
  unfold checkField at h
  split at h
  · injection h with h'
    subst h'
    exact namesField_missingMsg f
  · split at h
    · injection h with h'
      subst h'
      exact namesField_emptyMsg f
    · split at h
      · injection h with h'
        subst h'
        apply namesField_invalidTypeMsg
      · cases h

lemma fieldErrors_eq (d : PyDict) :
    fieldErrors d =
      (checkField d "user_id" isStr "<class \x27str\x27>").toList ++
      (checkField d "order_id" isStr "<class \x27str\x27>").toList ++
      (checkField d "order_value" isNum
        "(<class \x27int\x27>, <class \x27float\x27>)").toList := by
  simp [fieldErrors, requiredFields]

lemma process_order_of_no_field_errors {d : PyDict} {cv : Bool} {T R : ℚ}
    (he : fieldErrors d = [])
    (hs : sumItems (pyGetD d "items" (.list [])) = .ok T)
    (hr : toNum ((pyLookup d "order_value").getD PyVal.none) = some R) :
    process_order d cv =
      if |T - R| > 1/100 then
        if cv then
          .ok (.valid (strOf (pyGetD d "order_id" PyVal.none))
                (strOf (pyGetD d "user_id" PyVal.none)) T
                (pyGetD d "order_timestamp" PyVal.none) T)
        else
          .ok (.invalid (pyGetD d "order_id" PyVal.none) [mismatchMsg R T])
      else
        .ok (.valid (strOf (pyGetD d "order_id" PyVal.none))
              (strOf (pyGetD d "user_id" PyVal.none)) R
              (pyGetD d "order_timestamp" PyVal.none) T) := by
  unfold process_order
  rw [he, hs]
  simp only [ne_eq, not_true_eq_false, if_false, hr]

lemma fmt2_reported_infix (R T : ℚ) : (fmt2 R).data <:+: (mismatchMsg R T).data :=
  ⟨"Order value mismatch: reported $".data, (", computed $" ++ fmt2 T).data, by
    simp [mismatchMsg, String.data_append]⟩

lemma fmt2_computed_infix (R T : ℚ) : (fmt2 T).data <:+: (mismatchMsg R T).data :=
  List.IsSuffix.isInfix ⟨("Order value mismatch: reported $" ++ fmt2 R ++ ", computed $").data, by
    simp [mismatchMsg, String.data_append]⟩

/-- C1: for every order whose required fields pass (and whose item total is
computable), `process_order` compares the computed total `T` with the reported
`order_value` `R` under absolute tolerance `0.01`: within tolerance the order
is VALID with `order_value = R` and `computed_total = T`; outside tolerance
with `correct_value = true` it is VALID with the reported value discarded and
`order_value = T`; outside tolerance with `correct_value = false` it is
INVALID with exactly one error mentioning both formatted amounts. -/
theorem C1_tolerance_and_correction :
    ∀ (d : PyDict) (cv : Bool) (T R : ℚ),
      fieldErrors d = [] →
      sumItems (pyGetD d "items" (.list [])) = .ok T →
      toNum ((pyLookup d "order_value").getD PyVal.none) = some R →
      ((|T - R| ≤ 1/100 →
          process_order d cv = .ok (.valid (strOf (pyGetD d "order_id" PyVal.none))
            (strOf (pyGetD d "user_id" PyVal.none)) R
            (pyGetD d "order_timestamp" PyVal.none) T)) ∧
       (|T - R| > 1/100 → cv = true →
          process_order d cv = .ok (.valid (strOf (pyGetD d "order_id" PyVal.none))
            (strOf (pyGetD d "user_id" PyVal.none)) T
            (pyGetD d "order_timestamp" PyVal.none) T)) ∧
       (|T - R| > 1/100 → cv = false →
          process_order d cv =
            .ok (.invalid (pyGetD d "order_id" PyVal.none) [mismatchMsg R T]) ∧
          (fmt2 R).data <:+: (mismatchMsg R T).data ∧
          (fmt2 T).data <:+: (mismatchMsg R T).data)) := by
  intro d cv T R he hs hr
  have key := @process_order_of_no_field_errors _ cv _ _ he hs hr
  refine ⟨?_, ?_, ?_⟩
  · intro hle
    rw [key, if_neg (not_lt.mpr hle)]
  · intro hgt hcv
    subst hcv
    rw [key, if_pos hgt, if_pos rfl]
  · intro hgt hcv
    subst hcv
    refine ⟨?_, fmt2_reported_infix R T, fmt2_computed_infix R T⟩
    rw [key, if_pos hgt]
    rfl

/-- The worked example order of the spec (§8): items compute to `99.99`
while the reported `order_value` is `91.99`. -/
def sampleMismatch : PyDict :=
  [("order_id", .str "ORD1234"), ("user_id", .str "U5678"),
   ("order_timestamp", .str "2024-12-13T10:00:00Z"),
   ("order_value", .float (9199/100)),
   ("items", .list [
      .dict [("product_id", .str "P001"), ("quantity", .int 2),
             ("price_per_unit", .float 20)],
      .dict [("product_id", .str "P002"), ("quantity", .int 1),
             ("price_per_unit", .float (5999/100))]]),
   ("shipping_address", .str "123 Main St, Springfield"),
   ("payment_method", .str "CreditCard")]

/-- Witness for C1 at the spec's example: with `correct_value = false` the
mismatching order is INVALID with the single two-amount error. -/
theorem C1_witness :
    process_order sampleMismatch false =
      .ok (.invalid (.str "ORD1234") [mismatchMsg (9199/100) (9999/100)]) :=
  ((C1_tolerance_and_correction sampleMismatch false (9999/100) (9199/100)
      (by decide)
      (by simp [sampleMismatch, sumItems, itemTerm, pyGetD, pyLookup, toNum,
            List.foldlM, Except.map, Except.bind, bind, pure, Except.pure]
          norm_num)
      (by simp [sampleMismatch, pyLookup, toNum])).2.2 (by norm_num) rfl).1

/-- C2: the required-field check: (i) any field error yields INVALID
immediately, carrying exactly the field errors (the value comparison is
skipped); (ii) the error list is the concatenation of at most one error per
required field (`user_id`, `order_id`, `order_value`); (iii) each such error
names its field explicitly; (iv) a missing `user_id` yields INVALID with an
error naming `user_id`; (v) an empty-string `order_id` yields INVALID with an
error naming `order_id`. -/
theorem C2_required_field_check :
    (∀ (d : PyDict) (cv : Bool), fieldErrors d ≠ [] →
        process_order d cv =
          .ok (.invalid (pyGetD d "order_id" (.str "Unknown")) (fieldErrors d))) ∧
    (∀ d : PyDict, fieldErrors d =
        (checkField d "user_id" isStr "<class \x27str\x27>").toList ++
        (checkField d "order_id" isStr "<class \x27str\x27>").toList ++
        (checkField d "order_value" isNum
          "(<class \x27int\x27>, <class \x27float\x27>)").toList) ∧
    (∀ (d : PyDict) (f r e : String) (ty : PyVal → Bool),
        checkField d f ty r = some e → namesField e f) ∧
    (∀ (d : PyDict) (cv : Bool), pyLookup d "user_id" = Option.none →
        process_order d cv =
          .ok (.invalid (pyGetD d "order_id" (.str "Unknown")) (fieldErrors d)) ∧
        missingMsg "user_id" ∈ fieldErrors d ∧
        namesField (missingMsg "user_id") "user_id") ∧
    (∀ (d : PyDict) (cv : Bool), pyLookup d "order_id" = some (.str "") →
        process_order d cv = .ok (.invalid (.str "") (fieldErrors d)) ∧
        emptyMsg "order_id" ∈ fieldErrors d ∧
        namesField (emptyMsg "order_id") "order_id") := by
  have invalid_of_ne : ∀ (d : PyDict) (cv : Bool), fieldErrors d ≠ [] →
      process_order d cv =
        .ok (.invalid (pyGetD d "order_id" (.str "Unknown")) (fieldErrors d)) := by
    intro d cv h
    unfold process_order
    rw [if_pos h]
  refine ⟨invalid_of_ne, fieldErrors_eq, ?_, ?_, ?_⟩
  · intro d f r e ty h
    exact checkField_namesField h
  · intro d cv h
    have hcf : checkField d "user_id" isStr "<class \x27str\x27>" =
        some (missingMsg "user_id") := by
      simp [checkField, h]
    have hmem : missingMsg "user_id" ∈ fieldErrors d := by
      rw [fieldErrors_eq, hcf]
      simp
    exact ⟨invalid_of_ne d cv (List.ne_nil_of_mem hmem), hmem,
      namesField_missingMsg "user_id"⟩
  · intro d cv h
    have hcf : checkField d "order_id" isStr "<class \x27str\x27>" =
        some (emptyMsg "order_id") := by
      simp [checkField, h, isNone, isBlankStr]
    have hmem : emptyMsg "order_id" ∈ fieldErrors d := by
      rw [fieldErrors_eq, hcf]
      simp
    have hget : pyGetD d "order_id" (.str "Unknown") = .str "" := by
      simp [pyGetD, h]
    refine ⟨?_, hmem, namesField_emptyMsg "order_id"⟩
    rw [invalid_of_ne d cv (List.ne_nil_of_mem hmem), hget]

/-- Witness for C2: an order missing `user_id` is INVALID with the
`user_id`-naming error present; an order whose `order_id` is the empty string
is INVALID with the `order_id`-naming error present. -/
theorem C2_witness :
    (process_order [("order_id", PyVal.str "X")] true =
        .ok (.invalid (.str "X") (fieldErrors [("order_id", PyVal.str "X")])) ∧
      missingMsg "user_id" ∈ fieldErrors [("order_id", PyVal.str "X")] ∧
      namesField (missingMsg "user_id") "user_id") ∧
    (process_order [("order_id", PyVal.str ""), ("user_id", PyVal.str "u"),
        ("order_value", PyVal.int 5)] false =
        .ok (.invalid (.str "") (fieldErrors [("order_id", PyVal.str ""),
          ("user_id", PyVal.str "u"), ("order_value", PyVal.int 5)])) ∧
      emptyMsg "order_id" ∈ fieldErrors [("order_id", PyVal.str ""),
        ("user_id", PyVal.str "u"), ("order_value", PyVal.int 5)] ∧
      namesField (emptyMsg "order_id") "order_id") :=
  ⟨C2_required_field_check.2.2.2.1 [("order_id", PyVal.str "X")] true (by rfl),
   C2_required_field_check.2.2.2.2 [("order_id", PyVal.str ""),
     ("user_id", PyVal.str "u"), ("order_value", PyVal.int 5)] false (by rfl)⟩

lemma toNum_of_isNum {v : PyVal} (h : isNum v = true) : ∃ q, toNum v = some q := by
  cases v <;> simp_all [isNum, toNum]

lemma itemTerm_ok_of_itemOk {x : PyVal} (h : itemOk x = true) :
    ∃ q, itemTerm x = .ok q := by
  cases x <;> simp_all [itemOk]
  rename_i it
  obtain ⟨hq, hp⟩ := h
  obtain ⟨q, hq'⟩ := toNum_of_isNum hq
  obtain ⟨p, hp'⟩ := toNum_of_isNum hp
  exact ⟨q * p, by simp [itemTerm, hq', hp']⟩

lemma sumItems_ok_of_all {xs : List PyVal} (h : xs.all itemOk = true) :
    ∀ acc : ℚ, ∃ T,
      xs.foldlM (fun acc it => (itemTerm it).map (acc + ·)) acc = .ok T := by
  induction xs with
  | nil => exact fun acc => ⟨acc, rfl⟩
  | cons x xs ih =>
    intro acc
    rw [List.all_cons, Bool.and_eq_true] at h
    obtain ⟨q, hq⟩ := itemTerm_ok_of_itemOk h.1
    obtain ⟨T, hT⟩ := ih h.2 (acc + q)
    refine ⟨T, ?_⟩
    rw [List.foldlM_cons, hq]
    simpa [Except.map, bind, Except.bind] using hT

lemma checkField_none_ty {d : PyDict} {f r : String} {ty : PyVal → Bool}
    (h : checkField d f ty r = Option.none) :
    ∃ v, pyLookup d f = some v ∧ ty v = true := by
  unfold checkField at h
  split at h
  next heq => cases h
  next v heq =>
    split at h
    · cases h
    · split at h
      · cases h
      · next hty => exact ⟨v, heq, by simpa using hty⟩

lemma order_value_num_of_no_field_errors {d : PyDict} (h : fieldErrors d = []) :
    ∃ R, toNum ((pyLookup d "order_value").getD PyVal.none) = some R := by
  rw [fieldErrors_eq] at h
  rcases List.append_eq_nil.mp h with ⟨-, h3⟩
  cases hc : checkField d "order_value" isNum
      "(<class \x27int\x27>, <class \x27float\x27>)" with
  | none =>
    obtain ⟨v, hv, hn⟩ := checkField_none_ty hc
    obtain ⟨q, hq⟩ := toNum_of_isNum hn
    exact ⟨q, by rw [hv]; exact hq⟩
  | some e => rw [hc] at h3; cases h3

lemma process_order_err {d : PyDict} {cv : Bool} {e : Unit}
    (he : fieldErrors d = [])
    (hs : sumItems (pyGetD d "items" (.list [])) = .error e) :
    process_order d cv = .error e := by
  unfold process_order
  rw [he, hs]
  simp

/-- C9 (amended): `process_order` can raise — computing the item total raises
on a non-list `items` value or on a non-dict / non-numeric item — but it never
raises when `items` is a well-formed list; every INVALID result carries a
non-empty error list; and a missing `quantity` or `price_per_unit` on an item
is treated as 0 and is never an error. -/
theorem C9_total_and_errors_amended :
    (∀ (d : PyDict) (cv : Bool), itemsOk d = true →
        isOkE (process_order d cv) = true) ∧
    (∀ (d : PyDict) (cv : Bool) (oid : PyVal) (errs : List String),
        process_order d cv = .ok (.invalid oid errs) → errs ≠ []) ∧
    (∀ it : PyDict, pyLookup it "quantity" = Option.none →
        pyLookup it "price_per_unit" = Option.none →
        itemTerm (.dict it) = .ok 0) ∧
    (∀ (it : PyDict) (q : PyVal), pyLookup it "quantity" = some q →
        isNum q = true → pyLookup it "price_per_unit" = Option.none →
        itemTerm (.dict it) = .ok 0) := by
  refine ⟨?_, ?_, ?_, ?_⟩
  · intro d cv hio
    by_cases hfe : fieldErrors d = []
    · obtain ⟨R, hR⟩ := order_value_num_of_no_field_errors hfe
      unfold itemsOk at hio
      have hsum : ∃ T, sumItems (pyGetD d "items" (.list [])) = .ok T := by
        cases hv : pyGetD d "items" (.list []) <;> rw [hv] at hio
        case list xs =>
          obtain ⟨T, hT⟩ := sumItems_ok_of_all hio 0
          exact ⟨T, hT⟩
        all_goals simp at hio
      obtain ⟨T, hT⟩ := hsum
      rw [@process_order_of_no_field_errors _ cv _ _ hfe hT hR]
      by_cases hgt : |T - R| > 1/100
      · rw [if_pos hgt]
        cases cv <;> rfl
      · rw [if_neg hgt]
        rfl
    · unfold process_order
      rw [if_pos hfe]
      rfl
  · intro d cv oid errs h
    by_cases hfe : fieldErrors d = []
    · cases hs : sumItems (pyGetD d "items" (.list [])) with
      | error e =>
        rw [@process_order_err _ cv _ hfe hs] at h
        cases h
      | ok T =>
        obtain ⟨R, hR⟩ := order_value_num_of_no_field_errors hfe
        rw [@process_order_of_no_field_errors _ cv _ _ hfe hs hR] at h
        by_cases hgt : |T - R| > 1/100
        · rw [if_pos hgt] at h
          cases cv
          · rw [if_neg (by simp)] at h
            injection h with h'
            cases h'
            simp
          · rw [if_pos rfl] at h
            injection h with h'
            cases h'
        · rw [if_neg hgt] at h
          injection h with h'
          cases h'
    · unfold process_order at h
      rw [if_pos hfe] at h
      injection h with h'
      cases h'
      exact hfe
  · intro it h1 h2
    simp [itemTerm, pyGetD, h1, h2, toNum]
  · intro it q h1 hn h2
    cases q <;> simp_all [itemTerm, pyGetD, toNum, isNum]

/-- C9 counterexample: the claim "validate never raises" is false — a
well-formed order whose `items` value is the integer `42` makes Python raise
a `TypeError` while iterating `items`, so `process_order` raises instead of
returning a tagged result. -/
theorem C9_counterexample :
    process_order [("user_id", PyVal.str "u"), ("order_id", PyVal.str "o"),
      ("order_value", PyVal.int 5), ("items", PyVal.int 42)] true =
      .error () := by
  rfl

/-- Witness for C9 (amended) at concrete inputs: a well-formed order does not
raise, and an item with both fields missing contributes 0 without error. -/
theorem C9_witness :
    isOkE (process_order sampleMismatch true) = true ∧
    itemTerm (.dict [("product_id", PyVal.str "P")]) = .ok 0 :=
  ⟨C9_total_and_errors_amended.1 sampleMismatch true (by rfl),
   C9_total_and_errors_amended.2.2.1 [("product_id", PyVal.str "P")]
     (by rfl) (by rfl)⟩

/-- C10: `order_timestamp` is not a required field — an order that passes the
required-field and value checks but has no `order_timestamp` key is VALID and
its summary carries timestamp `None`. -/
theorem C10_timestamp_not_required :
    ∀ (d : PyDict) (cv : Bool) (T R : ℚ),
      fieldErrors d = [] →
      sumItems (pyGetD d "items" (.list [])) = .ok T →
      toNum ((pyLookup d "order_value").getD PyVal.none) = some R →
      (¬ |T - R| > 1/100 ∨ cv = true) →
      pyLookup d "order_timestamp" = Option.none →
      process_order d cv =
        .ok (.valid (strOf (pyGetD d "order_id" PyVal.none))
          (strOf (pyGetD d "user_id" PyVal.none))
          (if |T - R| > 1/100 then T else R) PyVal.none T) := by
  intro d cv T R he hs hr hok hts
  have hgetd : pyGetD d "order_timestamp" PyVal.none = PyVal.none := by
    simp [pyGetD, hts]
  have key := @process_order_of_no_field_errors _ cv _ _ he hs hr
  rcases hok with h | h
  · rw [key, if_neg h, if_neg h, hgetd]
  · subst h
    by_cases hgt : |T - R| > 1/100
    · rw [key, if_pos hgt, if_pos rfl, if_pos hgt, hgetd]
    · rw [key, if_neg hgt, if_neg hgt, hgetd]

/-- Witness for C10: a field-complete order with no `order_timestamp` key is
VALID with timestamp `None`. -/
theorem C10_witness :
    process_order [("order_id", PyVal.str "o"), ("user_id", PyVal.str "u"),
      ("order_value", PyVal.int 0)] true =
      .ok (.valid "o" "u" (if |(0:ℚ) - 0| > 1/100 then 0 else 0) PyVal.none 0) :=
  C10_timestamp_not_required [("order_id", PyVal.str "o"),
    ("user_id", PyVal.str "u"), ("order_value", PyVal.int 0)] true 0 0
    (by rfl) (by rfl) (by simp [pyLookup, toNum])
    (Or.inr rfl) (by rfl)

/-! ## The Redis store and the worker's aggregate mutations -/

/-- The Redis keyspace as the worker and the web layer use it: hash keys
(`user:{u}`, `user:{u}:{date}`, `global:stats`) and sorted-set keys
(`daily:{date}`, `temp:top:{period}:{date}`).  Hashes and sorted sets are
association lists in insertion order; an absent key maps to `none`.  The two
families never collide in this system (their key prefixes differ), so they
are kept in two maps. -/
structure RedisState : Type where
  hashes : String → Option (List (String × ℚ))
  zsets : String → Option (List (String × ℚ))

/-- The store with no keys. -/
def emptyRedis : RedisState := ⟨fun _ => Option.none, fun _ => Option.none⟩

/-- Association-list lookup (first match). -/
def alookup : List (String × ℚ) → String → Option ℚ
  | [], _ => Option.none
  | (k', v) :: rest, k => if k' = k then some v else alookup rest k

/-- Association-list upsert: update the first binding or append a new one. -/
def aupsert : List (String × ℚ) → String → ℚ → List (String × ℚ)
  | [], k, v => [(k, v)]
  | (k', v') :: rest, k, v =>
    if k' = k then (k, v) :: rest else (k', v') :: aupsert rest k v

/-- `HGET k f` as a number, with Redis's implicit 0 for an absent
key/field (the view `HINCRBY`/`HINCRBYFLOAT` take before incrementing). -/
def hgetD (st : RedisState) (k f : String) : ℚ :=
  (alookup ((st.hashes k).getD []) f).getD 0

/-- Write one hash field (creating the key if absent). -/
def hsetField (st : RedisState) (k f : String) (v : ℚ) : RedisState :=
  { st with hashes := fun k' =>
      if k' = k then some (aupsert ((st.hashes k).getD []) f v)
      else st.hashes k' }

/-- `HINCRBY`/`HINCRBYFLOAT`: increment a hash field, treating an absent
key/field as 0, and return the new value (which the worker captures as
`new_daily_spend`). -/
def hincr (st : RedisState) (k f : String) (delta : ℚ) : ℚ × RedisState :=
  (hgetD st k f + delta, hsetField st k f (hgetD st k f + delta))

/-- `ZSCORE k member`. -/
def zscore (st : RedisState) (k member : String) : Option ℚ :=
  (st.zsets k).bind (fun l => alookup l member)

/-- `ZADD k {member: score}`: absolute upsert of the member's score. -/
def zadd (st : RedisState) (k member : String) (score : ℚ) : RedisState :=
  { st with zsets := fun k' =>
      if k' = k then some (aupsert ((st.zsets k).getD []) member score)
      else st.zsets k' }

/-- `DEL k` (the worker never calls it; the web layer deletes its temp key). -/
def zdel (st : RedisState) (k : String) : RedisState :=
  { st with zsets := fun k' => if k' = k then Option.none else st.zsets k' }

/-- `f"user:{user_id}"`. -/
def userKey (u : String) : String := "user:" ++ u

/-- `f"user:{user_id}:{date}"`. -/
def userDailyKey (u d : String) : String := "user:" ++ u ++ ":" ++ d

/-- `f"daily:{date}"`. -/
def dailyKey (d : String) : String := "daily:" ++ d

/-- The four-step aggregate mutation the worker performs for a VALID order
(src/worker/worker.py, the block updating daily user stats, overall user
stats, the daily ranking sorted set and the global stats): the leaderboard
entry is set (not incremented) to the captured new per-day total. -/
def recordOrder (st : RedisState) (user_id date : String) (order_value : ℚ) :
    RedisState :=
  let st1 := (hincr st (userDailyKey user_id date) "order_count" 1).2
  let r2 := hincr st1 (userDailyKey user_id date) "total_spend" order_value
  let st3 := (hincr r2.2 (userKey user_id) "order_count" 1).2
  let st4 := (hincr st3 (userKey user_id) "total_spend" order_value).2
  let st5 := zadd st4 (dailyKey date) user_id r2.1
  let st6 := (hincr st5 "global:stats" "total_orders" 1).2
  (hincr st6 "global:stats" "total_revenue" order_value).2

/-- `recordOrder` under a failure schedule: `fs k = true` means the `k`-th
Redis call of this message raises before performing its mutation; the
`.error` carries the state reached so far (the earlier calls' effects are
already durable — the sequence is not transactional). -/
def recordOrderF (fs : Nat → Bool) (st : RedisState) (user_id date : String)
    (order_value : ℚ) : Except RedisState RedisState :=
  if fs 0 then .error st else
  let st1 := (hincr st (userDailyKey user_id date) "order_count" 1).2
  if fs 1 then .error st1 else
  let r2 := hincr st1 (userDailyKey user_id date) "total_spend" order_value
  if fs 2 then .error r2.2 else
  let st3 := (hincr r2.2 (userKey user_id) "order_count" 1).2
  if fs 3 then .error st3 else
  let st4 := (hincr st3 (userKey user_id) "total_spend" order_value).2
  if fs 4 then .error st4 else
  let st5 := zadd st4 (dailyKey date) user_id r2.1
  if fs 5 then .error st5 else
  let st6 := (hincr st5 "global:stats" "total_orders" 1).2
  if fs 6 then .error st6 else
  .ok ((hincr st6 "global:stats" "total_revenue" order_value).2)

lemma recordOrderF_ok (st : RedisState) (u d : String) (v : ℚ) :
    recordOrderF (fun _ => false) st u d v = .ok (recordOrder st u d v) := rfl

/-- The worker's `date = order_timestamp.split("T")[0]` (a `split` result is
never empty, so indexing `[0]` cannot fail on a string input). -/
def dateOf (ts : String) : String := (ts.splitOn "T").headD ""

/-- One iteration of the worker's per-message body (src/worker/worker.py):
the parsed payload is given as `Option PyVal` (`Option.none` models a
`json.loads` failure).  Returns the resulting store state and whether the
message was deleted from the queue.  The inner `try/except` makes the
function total: every exception path returns `(state so far, false)`.  Call
indices 0–6 of `fs` are the seven Redis mutations and index 7 the SQS
delete on the VALID path; on the INVALID path index 0 is the SQS delete. -/
def processMessage (fs : Nat → Bool) (st : RedisState) (parsed : Option PyVal) :
    RedisState × Bool :=
  match parsed with
  | Option.none => (st, false)
  | some (PyVal.dict d) =>
    match process_order d true with
    | .error _ => (st, false)
    | .ok (.invalid _ _) => if fs 0 then (st, false) else (st, true)
    | .ok (.valid _ user_id order_value ts _) =>
      match ts with
      | .str s =>
        match recordOrderF fs st user_id (dateOf s) order_value with
        | .error stPart => (stPart, false)
        | .ok st' => if fs 7 then (st', false) else (st', true)
      | _ => (st, false)
  | some _ => (st, false)

/-- C3: the message is deleted exactly when processing reaches a verdict:
a parse failure leaves the message (loop continues, nothing propagates); an
INVALID verdict deletes immediately with no store mutation; a VALID verdict
deletes only after all of `recordOrder`'s mutations succeeded; a failure
inside `recordOrder` (or a non-string timestamp, or `process_order` raising)
is caught and the message is not deleted. -/
theorem C3_delete_on_verdict_only :
    (∀ fs st, processMessage fs st Option.none = (st, false)) ∧
    (∀ fs st (d : PyDict) (oid : PyVal) (errs : List String),
        process_order d true = .ok (.invalid oid errs) → fs 0 = false →
        processMessage fs st (some (.dict d)) = (st, true)) ∧
    (∀ fs st (d : PyDict) (oid uid : String) (v T : ℚ) (s : String)
        (st' : RedisState),
        process_order d true = .ok (.valid oid uid v (.str s) T) →
        recordOrderF fs st uid (dateOf s) v = .ok st' →
        fs 7 = false →
        processMessage fs st (some (.dict d)) = (st', true)) ∧
    (∀ fs st (d : PyDict) (oid uid : String) (v T : ℚ) (s : String)
        (stPart : RedisState),
        process_order d true = .ok (.valid oid uid v (.str s) T) →
        recordOrderF fs st uid (dateOf s) v = .error stPart →
        processMessage fs st (some (.dict d)) = (stPart, false)) ∧
    (∀ fs st (d : PyDict) (e : Unit), process_order d true = .error e →
        processMessage fs st (some (.dict d)) = (st, false)) ∧
    (∀ fs st (d : PyDict) (oid uid : String) (v T : ℚ),
        process_order d true = .ok (.valid oid uid v PyVal.none T) →
        processMessage fs st (some (.dict d)) = (st, false)) := by
  refine ⟨fun fs st => rfl, ?_, ?_, ?_, ?_, ?_⟩
  · intro fs st d oid errs hp h0
    simp [processMessage, hp, h0]
  · intro fs st d oid uid v T s st' hp hrec h7
    simp [processMessage, hp, hrec, h7]
  · intro fs st d oid uid v T s stPart hp hrec
    simp [processMessage, hp, hrec]
  · intro fs st d e hp
    simp [processMessage, hp]
  · intro fs st d oid uid v T hp
    simp [processMessage, hp]

/-- A field-complete, value-consistent order with a timestamp, used to drive
the worker's VALID path. -/
def validOrderDict : PyDict :=
  [("order_id", PyVal.str "o1"), ("user_id", PyVal.str "U1"),
   ("order_value", PyVal.int 0),
   ("order_timestamp", PyVal.str "2024-01-01T10:00:00Z")]

lemma process_order_validOrderDict :
    process_order validOrderDict true =
      .ok (.valid "o1" "U1" 0 (.str "2024-01-01T10:00:00Z") 0) := by
  rw [@process_order_of_no_field_errors validOrderDict true 0 0 (by rfl) (by rfl)
    (by simp [validOrderDict, pyLookup, toNum])]
  norm_num
  exact ⟨rfl, rfl, rfl⟩

/-- Witness for C3: the INVALID and VALID branches at concrete messages. -/
theorem C3_witness :
    processMessage (fun _ => false) emptyRedis
      (some (.dict [("order_id", PyVal.str "X")])) = (emptyRedis, true) ∧
    processMessage (fun _ => false) emptyRedis (some (.dict validOrderDict)) =
      (recordOrder emptyRedis "U1"
        (dateOf "2024-01-01T10:00:00Z") 0, true) :=
  ⟨C3_delete_on_verdict_only.2.1 (fun _ => false) emptyRedis
      [("order_id", PyVal.str "X")] (.str "X")
      (fieldErrors [("order_id", PyVal.str "X")]) (by rfl) rfl,
   C3_delete_on_verdict_only.2.2.1 (fun _ => false) emptyRedis validOrderDict
      "o1" "U1" 0 0 "2024-01-01T10:00:00Z" _
      process_order_validOrderDict
      (recordOrderF_ok emptyRedis "U1" (dateOf "2024-01-01T10:00:00Z") 0)
      rfl⟩

/-- `GET /users/{user_id}/stats` (src/web/main.py): reads the overall
`user:{u}` hash; an absent user yields `(0, 0.0)`. -/
def getUserStats (st : RedisState) (user_id : String) : ℚ × ℚ :=
  match st.hashes (userKey user_id) with
  | Option.none => (0, 0)
  | some l => ((alookup l "order_count").getD 0, (alookup l "total_spend").getD 0)

/-- C4: two `recordOrder` calls for `U1` on `2024-01-01` (10.0 then 5.0) on
an empty store give `getUserStats U1 = (2, 15.0)`, and the daily leaderboard
for `2024-01-01` carries `U1` at score `15.0` — the `ZADD` writes the new
cumulative per-day total as an absolute score, not an increment. -/
theorem C4_two_orders_aggregation :
    getUserStats
      (recordOrder (recordOrder emptyRedis "U1" "2024-01-01" 10)
        "U1" "2024-01-01" 5) "U1" = (2, 15) ∧
    zscore
      (recordOrder (recordOrder emptyRedis "U1" "2024-01-01" 10)
        "U1" "2024-01-01" 5) (dailyKey "2024-01-01") "U1" = some 15 := by
  constructor <;>
    (simp [recordOrder, hincr, hgetD, hsetField, zadd, emptyRedis,
       getUserStats, userKey, userDailyKey, dailyKey, alookup, aupsert, zscore]
     norm_num)

/-! ## The cross-entity invariant (per-day spend vs. leaderboard score) -/

lemma alookup_aupsert_same (l : List (String × ℚ)) (k : String) (v : ℚ) :
    alookup (aupsert l k v) k = some v := by
  induction l with
  | nil => simp [aupsert, alookup]
  | cons hd tl ih =>
    by_cases h : hd.1 = k
    · simp [aupsert, alookup, h]
    · simp [aupsert, alookup, h, ih]

lemma alookup_aupsert_other (l : List (String × ℚ)) {k k' : String} (v : ℚ)
    (h : k' ≠ k) : alookup (aupsert l k v) k' = alookup l k' := by
  induction l with
  | nil => simp [aupsert, alookup, Ne.symm h]
  | cons hd tl ih =>
    by_cases hh : hd.1 = k
    · simp [aupsert, alookup, hh, Ne.symm h]
    · by_cases hh' : hd.1 = k'
      · simp [aupsert, alookup, hh, hh', h]
      · simp [aupsert, alookup, hh, hh', ih]

lemma hgetD_hsetField_same_field (st : RedisState) (k f : String) (v : ℚ) :
    hgetD (hsetField st k f v) k f = v := by
  simp [hgetD, hsetField, alookup_aupsert_same]

lemma hgetD_hsetField_other_field (st : RedisState) (k : String) {f f' : String}
    (v : ℚ) (h : f' ≠ f) : hgetD (hsetField st k f v) k f' = hgetD st k f' := by
  simp [hgetD, hsetField, alookup_aupsert_other _ _ h]

lemma hgetD_hsetField_other_key (st : RedisState) {k k' : String} (f f' : String)
    (v : ℚ) (h : k' ≠ k) : hgetD (hsetField st k f v) k' f' = hgetD st k' f' := by
  simp [hgetD, hsetField, h]

lemma hgetD_zadd (st : RedisState) (k m : String) (s : ℚ) (k' f : String) :
    hgetD (zadd st k m s) k' f = hgetD st k' f := rfl

lemma zscore_hsetField (st : RedisState) (k f : String) (v : ℚ) (k' m : String) :
    zscore (hsetField st k f v) k' m = zscore st k' m := rfl

lemma zscore_zadd_same (st : RedisState) (k m : String) (s : ℚ) :
    zscore (zadd st k m s) k m = some s := by
  simp [zscore, zadd, alookup_aupsert_same]

lemma zscore_zadd_same_key_other (st : RedisState) (k : String) {m m' : String}
    (s : ℚ) (h : m' ≠ m) : zscore (zadd st k m s) k m' = zscore st k m' := by
  cases hz : st.zsets k with
  | none => simp [zscore, zadd, hz, aupsert, alookup, Ne.symm h]
  | some l => simp [zscore, zadd, hz, alookup_aupsert_other _ _ h]

lemma zscore_zadd_other_key (st : RedisState) {k k' : String} (m : String)
    (s : ℚ) (m' : String) (h : k' ≠ k) :
    zscore (zadd st k m s) k' m' = zscore st k' m' := by
  simp [zscore, zadd, h]

/-- The string contains no `:` — Redis key components that are safe to embed
in a colon-separated key. -/
def colonFree (s : String) : Bool := s.data.all (fun c => c ≠ ':')

lemma colonFree_iff {s : String} : colonFree s = true ↔ ':' ∉ s.data := by
  unfold colonFree
  rw [List.all_eq_true]
  constructor
  · intro h hmem
    have := h _ hmem
    simp at this
  · intro h c hc
    simp only [decide_eq_true_eq]
    intro he
    exact h (he ▸ hc)

lemma colon_split_unique {b d : List Char} :
    ∀ {a c : List Char}, ':' ∉ c → ':' ∉ d →
      a ++ ':' :: b = c ++ ':' :: d → a = c ∧ b = d := by
  intro a
  induction a with
  | nil =>
    intro c hc hd h
    cases c with
    | nil => simpa using h
    | cons c0 cs =>
      simp only [List.nil_append, List.cons_append, List.cons.injEq] at h
      obtain ⟨h1, h2⟩ := h
      exact absurd (h1 ▸ List.mem_cons_self c0 cs) hc
  | cons x xs ih =>
    intro c hc hd h
    cases c with
    | nil =>
      simp only [List.cons_append, List.nil_append, List.cons.injEq] at h
      obtain ⟨h1, h2⟩ := h
      rw [← h2] at hd
      simp at hd
    | cons c0 cs =>
      simp only [List.cons_append, List.cons.injEq] at h
      obtain ⟨h1, h2⟩ := h
      have hc' : ':' ∉ cs := fun hm => hc (List.mem_cons_of_mem _ hm)
      obtain ⟨ha, hb⟩ := ih hc' hd h2
      exact ⟨by rw [h1, ha], hb⟩

lemma userDailyKey_data (u d : String) :
    (userDailyKey u d).data = "user:".data ++ (u.data ++ ':' :: d.data) := by
  simp [userDailyKey, String.data_append]

lemma userKey_data (u : String) : (userKey u).data = "user:".data ++ u.data := by
  simp [userKey, String.data_append]

lemma userDailyKey_inj {u d u0 d0 : String} (hu0 : colonFree u0 = true)
    (hd0 : colonFree d0 = true) (h : userDailyKey u d = userDailyKey u0 d0) :
    u = u0 ∧ d = d0 := by
  have hdata := congrArg String.data h
  rw [userDailyKey_data, userDailyKey_data] at hdata
  have h2 := List.append_cancel_left hdata
  obtain ⟨ha, hb⟩ :=
    colon_split_unique (colonFree_iff.mp hu0) (colonFree_iff.mp hd0) h2
  exact ⟨String.ext ha, String.ext hb⟩

lemma userDailyKey_ne_userKey {u d u0 : String} (hu0 : colonFree u0 = true) :
    userDailyKey u d ≠ userKey u0 := by
  intro h
  have hdata := congrArg String.data h
  rw [userDailyKey_data, userKey_data] at hdata
  have h2 := List.append_cancel_left hdata
  have : ':' ∈ u0.data := by
    rw [← h2]
    simp
  exact colonFree_iff.mp hu0 this

lemma userDailyKey_ne_global (u d : String) :
    userDailyKey u d ≠ "global:stats" := by
  intro h
  have hdata := congrArg String.data h
  rw [userDailyKey_data,
    show "user:".data = 'u' :: 's' :: 'e' :: 'r' :: [':'] from rfl,
    show "global:stats".data =
      'g' :: 'l' :: 'o' :: 'b' :: 'a' :: 'l' :: ':' :: 's' :: 't' :: 'a' ::
      't' :: ['s'] from rfl] at hdata
  simp at hdata

lemma dailyKey_inj {d d0 : String} (h : dailyKey d = dailyKey d0) : d = d0 := by
  have hdata := congrArg String.data h
  rw [dailyKey, dailyKey, String.data_append, String.data_append] at hdata
  exact String.ext (List.append_cancel_left hdata)

/-- `UserAggregate(user, date).total_spend` as stored. -/
def userDailySpend (st : RedisState) (u d : String) : ℚ :=
  hgetD st (userDailyKey u d) "total_spend"

/-- The user's score in `DailyLeaderboard(date)` (0 when absent). -/
def dailyScoreD (st : RedisState) (u d : String) : ℚ :=
  (zscore st (dailyKey d) u).getD 0

lemma userDailySpend_recordOrder (st : RedisState) {u0 d0 : String}
    (u d : String) (v : ℚ) (hu0 : colonFree u0 = true) :
    userDailySpend (recordOrder st u0 d0 v) u d =
      if userDailyKey u d = userDailyKey u0 d0
      then userDailySpend st u d + v
      else userDailySpend st u d := by
  unfold userDailySpend
  simp only [recordOrder, hincr]
  rw [hgetD_hsetField_other_key _ _ _ _ (userDailyKey_ne_global u d)]
  rw [hgetD_hsetField_other_key _ _ _ _ (userDailyKey_ne_global u d)]
  rw [hgetD_zadd]
  rw [hgetD_hsetField_other_key _ _ _ _ (userDailyKey_ne_userKey hu0)]
  rw [hgetD_hsetField_other_key _ _ _ _ (userDailyKey_ne_userKey hu0)]
  by_cases hK : userDailyKey u d = userDailyKey u0 d0
  · rw [if_pos hK, hK, hgetD_hsetField_same_field,
      hgetD_hsetField_other_field _ _ _ (by decide)]
  · rw [if_neg hK, hgetD_hsetField_other_key _ _ _ _ hK,
      hgetD_hsetField_other_key _ _ _ _ hK]

lemma dailyScoreD_recordOrder (st : RedisState) {u0 d0 : String}
    (u d : String) (v : ℚ) :
    dailyScoreD (recordOrder st u0 d0 v) u d =
      if d = d0 ∧ u = u0
      then userDailySpend st u0 d0 + v
      else dailyScoreD st u d := by
  unfold dailyScoreD
  simp only [recordOrder, hincr]
  rw [zscore_hsetField, zscore_hsetField]
  by_cases hd : d = d0
  · subst hd
    by_cases hu : u = u0
    · subst hu
      rw [zscore_zadd_same]
      rw [if_pos ⟨rfl, rfl⟩]
      simp [userDailySpend, hgetD_hsetField_other_field _ _ _
        (show "total_spend" ≠ "order_count" by decide)]
    · rw [zscore_zadd_same_key_other _ _ _ hu]
      rw [zscore_hsetField, zscore_hsetField, zscore_hsetField, zscore_hsetField]
      rw [if_neg (by simp [hu])]
  · have hdk : dailyKey d ≠ dailyKey d0 := fun h => hd (dailyKey_inj h)
    rw [zscore_zadd_other_key _ _ _ _ hdk]
    rw [zscore_hsetField, zscore_hsetField, zscore_hsetField, zscore_hsetField]
    rw [if_neg (by simp [hd])]

/-- A batch of successful `recordOrder` calls, applied in order
(each triple is `(user_id, date, order_value)`). -/
def applyOrders (ops : List (String × String × ℚ)) (st : RedisState) :
    RedisState :=
  ops.foldl (fun s op => recordOrder s op.1 op.2.1 op.2.2) st

lemma recordOrder_preserves_inv {st : RedisState} {u0 d0 : String} {v : ℚ}
    (hu0 : colonFree u0 = true) (hd0 : colonFree d0 = true)
    (hinv : ∀ u d, dailyScoreD st u d = userDailySpend st u d) :
    ∀ u d, dailyScoreD (recordOrder st u0 d0 v) u d =
      userDailySpend (recordOrder st u0 d0 v) u d := by
  intro u d
  rw [userDailySpend_recordOrder st u d v hu0, dailyScoreD_recordOrder st u d v]
  by_cases hK : userDailyKey u d = userDailyKey u0 d0
  · obtain ⟨hu, hd⟩ := userDailyKey_inj hu0 hd0 hK
    subst hu
    subst hd
    rw [if_pos ⟨rfl, rfl⟩, if_pos hK]
  · have hcond : ¬(d = d0 ∧ u = u0) := by
      rintro ⟨rfl, rfl⟩
      exact hK rfl
    rw [if_neg hcond, if_neg hK, hinv u d]

/-- C5 (amended): after any sequence of successful `recordOrder` calls on an
initially empty store, provided every call's `user_id` and `date` contain no
`:` (true for calendar dates; user ids with a colon alias other users' keys),
every user's per-day `total_spend` equals that user's score in the day's
leaderboard (both 0 when absent). -/
theorem C5_spend_matches_leaderboard_amended :
    ∀ ops : List (String × String × ℚ),
      (∀ op ∈ ops, colonFree op.1 = true ∧ colonFree op.2.1 = true) →
      ∀ u d, dailyScoreD (applyOrders ops emptyRedis) u d =
        userDailySpend (applyOrders ops emptyRedis) u d := by
  have base : ∀ u d, dailyScoreD emptyRedis u d = userDailySpend emptyRedis u d := by
    intro u d
    simp [dailyScoreD, userDailySpend, zscore, hgetD, emptyRedis, alookup]
  have main : ∀ (ops : List (String × String × ℚ)) (st : RedisState),
      (∀ op ∈ ops, colonFree op.1 = true ∧ colonFree op.2.1 = true) →
      (∀ u d, dailyScoreD st u d = userDailySpend st u d) →
      ∀ u d, dailyScoreD (applyOrders ops st) u d =
        userDailySpend (applyOrders ops st) u d := by
    intro ops
    induction ops with
    | nil => intro st _ hinv; exact hinv
    | cons op rest ih =>
      intro st hops hinv
      have hop := hops op (List.mem_cons_self op rest)
      exact ih (recordOrder st op.1 op.2.1 op.2.2)
        (fun o ho => hops o (List.mem_cons_of_mem op ho))
        (recordOrder_preserves_inv hop.1 hop.2 hinv)
  intro ops hops
  exact main ops emptyRedis hops base

/-- C5 counterexample: the unrestricted claim is false — recording one order
for the colon-carrying user id `a:2024-01-01` (any date) writes the overall
hash `user:a:2024-01-01`, which is the very key of `UserAggregate` for user
`a` on date `2024-01-01`; that user/date pair then has `total_spend = 5`
while its score in `DailyLeaderboard(2024-01-01)` is absent (0). -/
theorem C5_counterexample :
    dailyScoreD (recordOrder emptyRedis "a:2024-01-01" "2024-02-02" 5)
        "a" "2024-01-01" ≠
      userDailySpend (recordOrder emptyRedis "a:2024-01-01" "2024-02-02" 5)
        "a" "2024-01-01" := by
  simp [recordOrder, hincr, hgetD, hsetField, zadd, emptyRedis, dailyScoreD,
    userDailySpend, userKey, userDailyKey, dailyKey, alookup, aupsert, zscore]

/-- Witness for C5 (amended) at a concrete colon-free batch. -/
theorem C5_witness :
    dailyScoreD (applyOrders [("U1", "2024-01-01", 10)] emptyRedis)
        "U1" "2024-01-01" =
      userDailySpend (applyOrders [("U1", "2024-01-01", 10)] emptyRedis)
        "U1" "2024-01-01" :=
  C5_spend_matches_leaderboard_amended [("U1", "2024-01-01", 10)]
    (by decide) "U1" "2024-01-01"

/-! ## The period-aggregation engine: calendar dates (src/web/main.py) -/

/-- Python's leap-year rule (`calendar`/`datetime`). -/
def isLeap (y : Nat) : Bool := y % 4 == 0 && (y % 100 != 0 || y % 400 == 0)

/-- `datetime`'s `_days_in_month` (the `_DAYS_IN_MONTH` table plus the
February leap adjustment). -/
def daysInMonth (y m : Nat) : Nat :=
  if m = 2 then (if isLeap y then 29 else 28)
  else if m = 4 ∨ m = 6 ∨ m = 9 ∨ m = 11 then 30
  else 31

/-- `datetime`'s `_days_before_month` (cumulative month lengths, plus one
from March on in a leap year). -/
def daysBeforeMonth (y m : Nat) : Nat :=
  (match m with
   | 1 => 0 | 2 => 31 | 3 => 59 | 4 => 90 | 5 => 120 | 6 => 151
   | 7 => 181 | 8 => 212 | 9 => 243 | 10 => 273 | 11 => 304 | _ => 334) +
  (if 3 ≤ m ∧ isLeap y then 1 else 0)

/-- `datetime`'s `_days_before_year`: days before January 1st of `year`.
Python computes `y*365 + y//4 - y//100 + y//400` for `y = year - 1`; the
terms are reordered so the (equal-valued) truncated subtraction stays safe. -/
def daysBeforeYear (y : Nat) : Nat :=
  365 * (y - 1) + (y - 1) / 4 + (y - 1) / 400 - (y - 1) / 100

/-- A proleptic-Gregorian calendar date (as `datetime.date`). -/
structure Date : Type where
  year : Nat
  month : Nat
  day : Nat
deriving DecidableEq

/-- `datetime`'s `_ymd2ord` / `date.toordinal`: 0001-01-01 is ordinal 1. -/
def ordinal (dt : Date) : Nat :=
  daysBeforeYear dt.year + daysBeforeMonth dt.year dt.month + dt.day

/-- The date is a real calendar date (with a positive year). -/
def validDate (dt : Date) : Prop :=
  1 ≤ dt.year ∧ 1 ≤ dt.month ∧ dt.month ≤ 12 ∧ 1 ≤ dt.day ∧
    dt.day ≤ daysInMonth dt.year dt.month

instance (dt : Date) : Decidable (validDate dt) := by
  unfold validDate
  infer_instance

/-- The calendar successor of a date. -/
def nextDay (dt : Date) : Date :=
  if dt.day < daysInMonth dt.year dt.month then ⟨dt.year, dt.month, dt.day + 1⟩
  else if dt.month < 12 then ⟨dt.year, dt.month + 1, 1⟩
  else ⟨dt.year + 1, 1, 1⟩

/-- The calendar date `n` days after `dt`. -/
def addDays (n : Nat) (dt : Date) : Date := nextDay^[n] dt

/-- `date + timedelta(n)`: Python rebuilds the result from
`self.toordinal() + n` and raises `OverflowError` when that ordinal passes
`date.max` (`_MAXORDINAL = 3652059`, i.e. 9999-12-31); `none` models the
raise, and the in-range result is the calendar successor iterate. -/
def pyAddDays (dt : Date) (n : Nat) : Option Date :=
  if ordinal dt + n ≤ 3652059 then some (addDays n dt) else Option.none

/-- `date.strftime("%Y-%m-%d")` (zero-padded components). -/
def dateStr (dt : Date) : String :=
  padNat 4 dt.year ++ "-" ++ padNat 2 dt.month ++ "-" ++ padNat 2 dt.day

/-- Map a fallible function over a list, failing if any element fails (the
shape of a Python list comprehension whose body may raise). -/
def optMap {α β : Type} (f : α → Option β) : List α → Option (List β)
  | [] => some []
  | x :: xs =>
    match f x with
    | some y => (optMap f xs).map (fun ys => y :: ys)
    | Option.none => Option.none

/-- The comprehension
`[(first + timedelta(days=i)).strftime("%Y-%m-%d") for i in range(k)]`:
`none` models an `OverflowError` raised at some `i`. -/
def strfDates (first : Date) (k : Nat) : Option (List String) :=
  optMap (fun i => (pyAddDays first i).map dateStr) (List.range k)

/-- `datetime.date(y, m, d)`: `none` models the `ValueError` on an
out-of-range component (`MINYEAR = 1`, `MAXYEAR = 9999`). -/
def mkDate? (y m d : Nat) : Option Date :=
  if 1 ≤ y ∧ y ≤ 9999 ∧ 1 ≤ m ∧ m ≤ 12 ∧ 1 ≤ d ∧ d ≤ daysInMonth y m then
    some ⟨y, m, d⟩
  else Option.none

/-- `datetime`'s `_isoweek1monday`: the Monday of ISO week 1 of `year`,
as a date (Jan 1 when Jan 1 is a Monday; a date in the previous December
when Jan 1 is Tue–Thu; a date later in January otherwise). -/
def isoweek1monday (y : Nat) : Date :=
  let fw := (ordinal ⟨y, 1, 1⟩ + 6) % 7
  if fw = 0 then ⟨y, 1, 1⟩
  else if fw ≤ 3 then ⟨y - 1, 12, 32 - fw⟩
  else ⟨y, 1, 8 - fw⟩

/-- The condition under which Python's `fromisocalendar` accepts week 53:
the year starts on a Thursday, or on a Wednesday in a leap year. -/
def isoLongYear (y : Nat) : Bool :=
  ordinal ⟨y, 1, 1⟩ % 7 == 4 || (ordinal ⟨y, 1, 1⟩ % 7 == 3 && isLeap y)

/-- `datetime.date.fromisocalendar(y, w, 1)`: the Monday of ISO week `w` of
ISO year `y`; `none` models the `ValueError` on an invalid year or week. -/
def fromisocalendarMonday (y w : Nat) : Option Date :=
  if 1 ≤ y ∧ y ≤ 9999 then
    if 1 ≤ w ∧ (w ≤ 52 ∨ (w = 53 ∧ isoLongYear y = true)) then
      some (addDays (7 * (w - 1)) (isoweek1monday y))
    else Option.none
  else Option.none

/-- The numeric value of a decimal digit character. -/
def digVal (c : Char) : Option Nat :=
  if 48 ≤ c.toNat ∧ c.toNat ≤ 57 then some (c.toNat - 48) else Option.none

/-- `int(s)` for the plain-decimal strings this API receives (no sign,
no underscores, no surrounding whitespace); `none` models `ValueError`. -/
def pyInt (s : String) : Option Nat :=
  match s.data with
  | [] => Option.none
  | cs => cs.foldl
      (fun acc c =>
        match acc, digVal c with
        | some n, some d => some (n * 10 + d)
        | _, _ => Option.none)
      (some 0)

/-- `s.split(sep)` for a one-character separator, over the character list. -/
def pySplitAux (sep : Char) : List Char → List Char → List String
  | [], acc => [String.mk acc.reverse]
  | c :: rest, acc =>
    if c = sep then String.mk acc.reverse :: pySplitAux sep rest []
    else pySplitAux sep rest (c :: acc)

/-- Python `s.split("-")` (single-character separator). -/
def pySplit (s : String) (sep : Char) : List String :=
  pySplitAux sep s.data []

/-- Shallow embedding of `get_dates_for_period(period, date_str)`
(src/web/main.py).  `.error ()` models a raised exception (unpacking or
`int()` failures, `date()`/`fromisocalendar()` rejections, and the
`OverflowError` of `first_day + timedelta(days=i)` past `date.max`); an
unrecognized period returns the empty list.  The comprehensions are embedded
as `strfDates`, and `(next - first).days` as the ordinal difference, exactly
the quantities Python computes. -/
def get_dates_for_period (period date_str : String) : Except Unit (List String) :=
  if period = "d" then .ok [date_str]
  else if period = "w" then
    match (pySplit date_str '-').map pyInt with
    | [some y, some w] =>
      match fromisocalendarMonday y w with
      | some first =>
        match strfDates first 7 with
        | some l => .ok l
        | Option.none => .error ()
      | Option.none => .error ()
    | _ => .error ()
  else if period = "m" then
    match (pySplit date_str '-').map pyInt with
    | [some y, some m] =>
      match mkDate? y m 1, mkDate? (y + m / 12) (m % 12 + 1) 1 with
      | some first, some next =>
        match strfDates first (ordinal next - ordinal first) with
        | some l => .ok l
        | Option.none => .error ()
      | _, _ => .error ()
    | _ => .error ()
  else if period = "y" then
    match pyInt date_str with
    | some y =>
      match mkDate? y 1 1, mkDate? (y + 1) 1 1 with
      | some first, some next =>
        match strfDates first (ordinal next - ordinal first) with
        | some l => .ok l
        | Option.none => .error ()
      | _, _ => .error ()
    | Option.none => .error ()
  else .ok []

lemma isLeap_eq_true_iff (y : Nat) :
    isLeap y = true ↔ (y % 4 = 0 ∧ (y % 100 ≠ 0 ∨ y % 400 = 0)) := by
  unfold isLeap
  simp only [Bool.and_eq_true, Bool.or_eq_true, beq_iff_eq, bne_iff_ne, ne_eq]

lemma isLeap_ite (y : Nat) :
    (if isLeap y then 1 else 0) =
      if y % 4 = 0 ∧ (y % 100 ≠ 0 ∨ y % 400 = 0) then 1 else 0 := by
  simp only [isLeap_eq_true_iff]

set_option maxHeartbeats 2000000 in
lemma dBY_succ (y : Nat) (hy : 1 ≤ y) :
    daysBeforeYear (y + 1) =
      daysBeforeYear y + 365 + (if isLeap y then 1 else 0) := by
  unfold daysBeforeYear
  by_cases hl : isLeap y = true
  · rw [if_pos hl]
    rw [isLeap_eq_true_iff] at hl
    omega
  · rw [if_neg hl]
    rw [isLeap_eq_true_iff] at hl
    push_neg at hl
    omega

lemma dBM_step (y m : Nat) (h1 : 1 ≤ m) (h11 : m ≤ 11) :
    daysBeforeMonth y (m + 1) = daysBeforeMonth y m + daysInMonth y m := by
  interval_cases m <;>
    cases hl : isLeap y <;>
      simp [daysBeforeMonth, daysInMonth, hl]

lemma daysInMonth_pos (y m : Nat) : 1 ≤ daysInMonth y m := by
  unfold daysInMonth
  split
  · split <;> omega
  · split <;> omega

lemma daysInMonth_le_31 (y m : Nat) : daysInMonth y m ≤ 31 := by
  unfold daysInMonth
  split
  · split <;> omega
  · split <;> omega

lemma ordinal_jan1 (y : Nat) : ordinal ⟨y, 1, 1⟩ = daysBeforeYear y + 1 := by
  simp [ordinal, daysBeforeMonth]

lemma ordinal_dec (y d : Nat) :
    ordinal ⟨y, 12, d⟩ =
      daysBeforeYear y + 334 + (if isLeap y then 1 else 0) + d := by
  cases hl : isLeap y <;> simp [ordinal, daysBeforeMonth, hl]

lemma ord_nextDay {dt : Date} (h : validDate dt) :
    ordinal (nextDay dt) = ordinal dt + 1 := by
  obtain ⟨Y, M, D⟩ := dt
  obtain ⟨hy, hm1, hm12, hd1, hdm⟩ := h
  simp only at hy hm1 hm12 hd1 hdm
  unfold nextDay
  by_cases h1 : D < daysInMonth Y M
  · simp only [h1, if_true, ordinal]
    omega
  · simp only at h1
    have hd : D = daysInMonth Y M := Nat.le_antisymm hdm (Nat.not_lt.mp h1)
    by_cases h2 : M < 12
    · simp only [h1, if_false, h2, if_true, ordinal]
      rw [dBM_step Y M hm1 (by omega)]
      omega
    · have hm : M = 12 := Nat.le_antisymm hm12 (Nat.not_lt.mp h2)
      subst hm
      simp only [h1, if_false, h2, if_true]
      rw [ordinal_jan1, ordinal_dec, dBY_succ Y hy]
      have : D = 31 := by
        rw [hd]
        simp [daysInMonth]
      omega

lemma validDate_nextDay {dt : Date} (h : validDate dt) :
    validDate (nextDay dt) := by
  obtain ⟨Y, M, D⟩ := dt
  obtain ⟨hy, hm1, hm12, hd1, hdm⟩ := h
  simp only at hy hm1 hm12 hd1 hdm
  simp only [nextDay]
  split
  · next h1 =>
    refine ⟨hy, hm1, hm12, ?_, ?_⟩
    · show 1 ≤ D + 1
      omega
    · show D + 1 ≤ daysInMonth Y M
      omega
  · split
    · next h2 =>
      refine ⟨hy, ?_, ?_, ?_, ?_⟩
      · show 1 ≤ M + 1
        omega
      · show M + 1 ≤ 12
        omega
      · show 1 ≤ 1
        omega
      · show 1 ≤ daysInMonth Y (M + 1)
        exact daysInMonth_pos Y (M + 1)
    · next h2 =>
      refine ⟨?_, ?_, ?_, ?_, ?_⟩
      · show 1 ≤ Y + 1
        omega
      · show 1 ≤ 1
        omega
      · show (1 : Nat) ≤ 12
        omega
      · show 1 ≤ 1
        omega
      · show 1 ≤ daysInMonth (Y + 1) 1
        exact daysInMonth_pos (Y + 1) 1

lemma ord_addDays (n : Nat) {dt : Date} (h : validDate dt) :
    ordinal (addDays n dt) = ordinal dt + n ∧ validDate (addDays n dt) := by
  induction n with
  | zero => exact ⟨rfl, h⟩
  | succ k ih =>
    have hs : addDays (k + 1) dt = nextDay (addDays k dt) :=
      Function.iterate_succ_apply' nextDay k dt
    rw [hs, ord_nextDay ih.2, ih.1]
    exact ⟨rfl, validDate_nextDay ih.2⟩

lemma addDays_within_month {y m d : Nat} (_h : validDate ⟨y, m, d⟩) :
    ∀ i, d + i ≤ daysInMonth y m → addDays i ⟨y, m, d⟩ = ⟨y, m, d + i⟩ := by
  intro i
  induction i with
  | zero => intro _; rfl
  | succ k ih =>
    intro hle
    have hk := ih (by omega)
    have hs : addDays (k + 1) (⟨y, m, d⟩ : Date) =
        nextDay (addDays k ⟨y, m, d⟩) :=
      Function.iterate_succ_apply' nextDay k _
    rw [hs, hk]
    unfold nextDay
    simp only
    rw [if_pos (by omega)]
    rfl

lemma addDays_month_end {y m : Nat} (h : validDate ⟨y, m, 1⟩) :
    addDays (daysInMonth y m) ⟨y, m, 1⟩ =
      if m < 12 then (⟨y, m + 1, 1⟩ : Date) else ⟨y + 1, 1, 1⟩ := by
  have hpos := daysInMonth_pos y m
  have h1 : addDays (daysInMonth y m) (⟨y, m, 1⟩ : Date) =
      nextDay (addDays (daysInMonth y m - 1) ⟨y, m, 1⟩) := by
    rw [show daysInMonth y m = (daysInMonth y m - 1) + 1 by omega]
    exact Function.iterate_succ_apply' nextDay _ _
  rw [h1, addDays_within_month h _ (by omega)]
  unfold nextDay
  simp only
  rw [if_neg (by omega)]

/-- The list of formatted dates of month `m` of year `y`, in day order. -/
def monthDates (y m : Nat) : List String :=
  (List.range' 1 (daysInMonth y m)).map (fun d => dateStr ⟨y, m, d⟩)

lemma month_block {y m : Nat} (h : validDate ⟨y, m, 1⟩) :
    (List.range (daysInMonth y m)).map (fun i => dateStr (addDays i ⟨y, m, 1⟩)) =
      monthDates y m := by
  unfold monthDates
  rw [List.range'_eq_map_range]
  rw [List.map_map]
  apply List.map_congr_left
  intro i hi
  rw [List.mem_range] at hi
  simp only [Function.comp]
  rw [addDays_within_month h i (by omega)]

/-- Total length of the first `k` months of year `y`. -/
def sumDim (y k : Nat) : Nat := ((List.range' 1 k).map (daysInMonth y)).sum

/-- All dates of year `y`, month by month. -/
def yearDates (y : Nat) : List String :=
  ((List.range' 1 12).map (monthDates y)).flatten

lemma addDays_add (a b : Nat) (dt : Date) :
    addDays (a + b) dt = addDays a (addDays b dt) :=
  Function.iterate_add_apply nextDay a b dt

lemma sumDim_succ (y k : Nat) :
    sumDim y (k + 1) = sumDim y k + daysInMonth y (k + 1) := by
  unfold sumDim
  rw [show List.range' 1 (k + 1) = List.range' 1 k ++ [1 + k] by
    simpa using @List.range'_concat 1 1 k]
  rw [List.map_append, List.sum_append]
  simp [Nat.add_comm 1 k]

lemma sumDim_12 (y : Nat) :
    sumDim y 12 = 365 + (if isLeap y then 1 else 0) := by
  cases hl : isLeap y <;>
    simp [sumDim, daysInMonth, hl, List.range', List.sum_cons]

lemma valid_month_first {y m : Nat} (hy : 1 ≤ y) (hm1 : 1 ≤ m) (hm12 : m ≤ 12) :
    validDate ⟨y, m, 1⟩ :=
  ⟨hy, hm1, hm12, le_refl 1, daysInMonth_pos y m⟩

lemma months_prefix {y : Nat} (hy : 1 ≤ y) :
    ∀ k, k ≤ 11 →
      addDays (sumDim y k) ⟨y, 1, 1⟩ = ⟨y, k + 1, 1⟩ ∧
      (List.range (sumDim y k)).map (fun i => dateStr (addDays i ⟨y, 1, 1⟩)) =
        ((List.range' 1 k).map (monthDates y)).flatten := by
  intro k
  induction k with
  | zero => exact fun _ => ⟨rfl, rfl⟩
  | succ k ih =>
    intro hk
    obtain ⟨hend, hdates⟩ := ih (by omega)
    constructor
    · rw [sumDim_succ, Nat.add_comm (sumDim y k) (daysInMonth y (k + 1))]
      rw [addDays_add]
      rw [hend]
      have hv : validDate ⟨y, k + 1, 1⟩ := valid_month_first hy (by omega) (by omega)
      rw [addDays_month_end hv]
      rw [if_pos (by omega)]
    · rw [sumDim_succ]
      rw [List.range_add, List.map_append, hdates]
      rw [show List.range' 1 (k + 1) = List.range' 1 k ++ [1 + k] by
        simpa using @List.range'_concat 1 1 k]
      rw [List.map_append, List.flatten_append]
      congr 1
      rw [List.map_map]
      have hv : validDate ⟨y, k + 1, 1⟩ := valid_month_first hy (by omega) (by omega)
      have : ∀ i ∈ List.range (daysInMonth y (k + 1)),
          dateStr (addDays (sumDim y k + i) ⟨y, 1, 1⟩) =
            dateStr (addDays i ⟨y, k + 1, 1⟩) := by
        intro i _
        rw [Nat.add_comm (sumDim y k) i, addDays_add, hend]
      rw [List.map_congr_left (fun i hi => by
        simpa [Function.comp] using this i hi)]
      rw [month_block hv]
      simp [Nat.add_comm 1 k]

set_option maxHeartbeats 2000000 in
lemma year_dates_eq {y : Nat} (hy : 1 ≤ y) :
    (List.range (365 + (if isLeap y then 1 else 0))).map
        (fun i => dateStr (addDays i ⟨y, 1, 1⟩)) = yearDates y := by
  obtain ⟨hend, hdates⟩ := months_prefix hy 11 (by omega)
  rw [← sumDim_12 y, show (12 : Nat) = 11 + 1 from rfl, sumDim_succ]
  rw [List.range_add, List.map_append, hdates]
  unfold yearDates
  rw [show List.range' 1 12 = List.range' 1 11 ++ [12] by
    simpa using @List.range'_concat 1 1 11]
  rw [List.map_append, List.flatten_append]
  congr 1
  have hend' : addDays (sumDim y 11) (⟨y, 1, 1⟩ : Date) = ⟨y, 12, 1⟩ := by
    simpa using hend
  have hv : validDate (⟨y, 12, 1⟩ : Date) := valid_month_first hy (by omega) (by omega)
  have key : ∀ i ∈ List.range (daysInMonth y 12),
      ((fun i => dateStr (addDays i (⟨y, 1, 1⟩ : Date))) ∘ fun x => sumDim y 11 + x) i =
        dateStr (addDays i (⟨y, 12, 1⟩ : Date)) := by
    intro i _
    simp only [Function.comp]
    rw [Nat.add_comm (sumDim y 11) i, addDays_add, hend']
  rw [List.map_map, List.map_congr_left key, month_block hv]
  simp

lemma isoweek1monday_props (y : Nat) (hy : 1 ≤ y) :
    (ordinal (isoweek1monday y) + 6) % 7 = 0 ∧ validDate (isoweek1monday y) ∧
      ordinal (isoweek1monday y) ≤ daysBeforeYear y + 4 := by
  have hjan : ordinal ⟨y, 1, 1⟩ = daysBeforeYear y + 1 := ordinal_jan1 y
  unfold isoweek1monday
  by_cases h0 : (ordinal ⟨y, 1, 1⟩ + 6) % 7 = 0
  · rw [if_pos h0]
    exact ⟨h0, valid_month_first hy (le_refl 1) (by norm_num), by omega⟩
  · rw [if_neg h0]
    by_cases h3 : (ordinal ⟨y, 1, 1⟩ + 6) % 7 ≤ 3
    · rw [if_pos h3]
      have hy2 : 2 ≤ y := by
        by_contra hlt
        have hy1 : y = 1 := by omega
        subst hy1
        have hone : ordinal ⟨1, 1, 1⟩ = 1 := by
          simp [ordinal, daysBeforeYear, daysBeforeMonth]
        rw [hone] at h0
        omega
      have hord : ordinal ⟨y - 1, 12, 32 - (ordinal ⟨y, 1, 1⟩ + 6) % 7⟩ +
          (ordinal ⟨y, 1, 1⟩ + 6) % 7 = ordinal ⟨y, 1, 1⟩ := by
        rw [ordinal_dec, ordinal_jan1]
        have hsucc := dBY_succ (y - 1) (by omega)
        rw [show y - 1 + 1 = y by omega] at hsucc
        omega
      have hd31 : daysInMonth (y - 1) 12 = 31 := by simp [daysInMonth]
      refine ⟨by omega, ⟨?_, ?_, ?_, ?_, ?_⟩, by omega⟩
      · show 1 ≤ y - 1
        omega
      · show (1 : Nat) ≤ 12
        omega
      · show (12 : Nat) ≤ 12
        omega
      · show 1 ≤ 32 - (ordinal ⟨y, 1, 1⟩ + 6) % 7
        omega
      · show 32 - (ordinal ⟨y, 1, 1⟩ + 6) % 7 ≤ daysInMonth (y - 1) 12
        rw [hd31]
        omega
    · rw [if_neg h3]
      have h6 : (ordinal ⟨y, 1, 1⟩ + 6) % 7 < 7 := Nat.mod_lt _ (by norm_num)
      have hord : ordinal ⟨y, 1, 8 - (ordinal ⟨y, 1, 1⟩ + 6) % 7⟩ +
          (ordinal ⟨y, 1, 1⟩ + 6) % 7 = ordinal ⟨y, 1, 1⟩ + 7 := by
        simp only [ordinal, daysBeforeMonth]
        norm_num
        omega
      have hd31 : daysInMonth y 1 = 31 := by simp [daysInMonth]
      refine ⟨by omega, ⟨hy, ?_, ?_, ?_, ?_⟩, by omega⟩
      · show (1 : Nat) ≤ 1
        omega
      · show (1 : Nat) ≤ 12
        omega
      · show 1 ≤ 8 - (ordinal ⟨y, 1, 1⟩ + 6) % 7
        omega
      · show 8 - (ordinal ⟨y, 1, 1⟩ + 6) % 7 ≤ daysInMonth y 1
        rw [hd31]
        omega

lemma monday_weekdays (y w : Nat) (hy : 1 ≤ y) :
    ∀ i, i < 7 →
      (ordinal (addDays i (addDays (7 * (w - 1)) (isoweek1monday y))) + 6) % 7
        = i := by
  obtain ⟨hmod, hval, -⟩ := isoweek1monday_props y hy
  obtain ⟨hordw, hvalw⟩ := ord_addDays (7 * (w - 1)) hval
  intro i hi
  obtain ⟨hordi, -⟩ := ord_addDays i hvalw
  rw [hordi, hordw]
  omega

lemma ord_diff_month {y m : Nat} (hy : 1 ≤ y) (hm1 : 1 ≤ m) (hm12 : m ≤ 12) :
    ordinal ⟨y + m / 12, m % 12 + 1, 1⟩ - ordinal ⟨y, m, 1⟩ =
      daysInMonth y m := by
  by_cases h : m < 12
  · have h12 : m / 12 = 0 := by omega
    have hmod : m % 12 = m := by omega
    rw [h12, hmod]
    simp only [ordinal, Nat.add_zero]
    rw [dBM_step y m hm1 (by omega)]
    omega
  · have hm : m = 12 := by omega
    subst hm
    norm_num
    rw [ordinal_jan1, ordinal_dec, dBY_succ y hy]
    have : daysInMonth y 12 = 31 := by simp [daysInMonth]
    omega

lemma ord_diff_year {y : Nat} (hy : 1 ≤ y) :
    ordinal ⟨y + 1, 1, 1⟩ - ordinal ⟨y, 1, 1⟩ =
      365 + (if isLeap y then 1 else 0) := by
  rw [ordinal_jan1, ordinal_jan1, dBY_succ y hy]
  omega

lemma optMap_eq_map {α β : Type} (f : α → Option β) (g : α → β) :
    ∀ l : List α, (∀ x ∈ l, f x = some (g x)) → optMap f l = some (l.map g) := by
  intro l
  induction l with
  | nil => intro _; rfl
  | cons x xs ih =>
    intro h
    have hx : f x = some (g x) := h x (by simp)
    have hxs := ih (fun z hz => h z (by simp [hz]))
    simp only [optMap, hx, hxs, List.map_cons, Option.map_some']

lemma strfDates_eq {first : Date} {k : Nat}
    (h : ∀ i, i < k → ordinal first + i ≤ 3652059) :
    strfDates first k =
      some ((List.range k).map (fun i => dateStr (addDays i first))) := by
  unfold strfDates
  apply optMap_eq_map
  intro i hi
  rw [List.mem_range] at hi
  unfold pyAddDays
  rw [if_pos (h i hi)]
  rfl

lemma optMap_eq_none {α β : Type} (f : α → Option β) :
    ∀ l : List α, (∃ x ∈ l, f x = Option.none) → optMap f l = Option.none := by
  intro l
  induction l with
  | nil =>
    intro h
    simp at h
  | cons x xs ih =>
    intro h
    obtain ⟨z, hz, hfz⟩ := h
    rcases List.mem_cons.mp hz with hzx | hzm
    · subst hzx
      simp only [optMap, hfz]
    · cases hfx : f x with
      | none => simp only [optMap, hfx]
      | some y => simp only [optMap, hfx, ih ⟨z, hzm, hfz⟩, Option.map_none']

lemma strfDates_none {first : Date} {k i : Nat} (hi : i < k)
    (h : 3652059 < ordinal first + i) :
    strfDates first k = Option.none := by
  unfold strfDates
  apply optMap_eq_none
  refine ⟨i, List.mem_range.mpr hi, ?_⟩
  unfold pyAddDays
  rw [if_neg (by omega)]
  rfl

lemma dBM_dim_le (y m : Nat) (hm1 : 1 ≤ m) (hm12 : m ≤ 12) :
    daysBeforeMonth y m + daysInMonth y m ≤
      365 + (if isLeap y then 1 else 0) := by
  interval_cases m <;> cases hl : isLeap y <;>
    simp [daysBeforeMonth, daysInMonth, hl]

/-- Every valid date up to year 9999 has ordinal at most `_MAXORDINAL`,
the ordinal of `date.max` (9999-12-31). -/
lemma ordinal_le_max {dt : Date} (h : validDate dt) (hy : dt.year ≤ 9999) :
    ordinal dt ≤ 3652059 := by
  obtain ⟨Y, M, D⟩ := dt
  obtain ⟨hy1, hm1, hm12, hd1, hdm⟩ := h
  simp only at hy1 hm1 hm12 hd1 hdm hy
  have hbm := dBM_dim_le Y M hm1 hm12
  have key : daysBeforeYear Y + 365 + (if isLeap Y then 1 else 0) ≤
      3652059 := by
    unfold daysBeforeYear
    by_cases hl : isLeap Y = true
    · rw [if_pos hl]
      rw [isLeap_eq_true_iff] at hl
      omega
    · rw [if_neg hl]
      omega
  simp only [ordinal]
  omega

lemma dBY_le_9998 {y : Nat} (hy : y ≤ 9998) :
    daysBeforeYear y + 367 ≤ 3652059 := by
  unfold daysBeforeYear
  omega

lemma gdfp_m_eval {s : String} {y m : Nat}
    (hsplit : (pySplit s '-').map pyInt = [some y, some m])
    (h1 : mkDate? y m 1 = some ⟨y, m, 1⟩)
    (h2 : mkDate? (y + m / 12) (m % 12 + 1) 1 =
      some ⟨y + m / 12, m % 12 + 1, 1⟩)
    (hmax : ordinal ⟨y + m / 12, m % 12 + 1, 1⟩ ≤ 3652059) :
    get_dates_for_period "m" s =
      .ok ((List.range
          (ordinal ⟨y + m / 12, m % 12 + 1, 1⟩ - ordinal ⟨y, m, 1⟩)).map
        (fun i => dateStr (addDays i ⟨y, m, 1⟩))) := by
  unfold get_dates_for_period
  rw [if_neg (by decide), if_neg (by decide), if_pos rfl]
  have hsf : strfDates ⟨y, m, 1⟩
      (ordinal ⟨y + m / 12, m % 12 + 1, 1⟩ - ordinal ⟨y, m, 1⟩) =
      some ((List.range
          (ordinal ⟨y + m / 12, m % 12 + 1, 1⟩ - ordinal ⟨y, m, 1⟩)).map
        (fun i => dateStr (addDays i ⟨y, m, 1⟩))) :=
    strfDates_eq (fun i hi => by omega)
  simp only [hsplit, h1, h2, hsf]

lemma gdfp_y_eval {s : String} {y : Nat}
    (hparse : pyInt s = some y)
    (h1 : mkDate? y 1 1 = some ⟨y, 1, 1⟩)
    (h2 : mkDate? (y + 1) 1 1 = some ⟨y + 1, 1, 1⟩)
    (hmax : ordinal ⟨y + 1, 1, 1⟩ ≤ 3652059) :
    get_dates_for_period "y" s =
      .ok ((List.range (ordinal ⟨y + 1, 1, 1⟩ - ordinal ⟨y, 1, 1⟩)).map
        (fun i => dateStr (addDays i ⟨y, 1, 1⟩))) := by
  unfold get_dates_for_period
  rw [if_neg (by decide), if_neg (by decide), if_neg (by decide), if_pos rfl]
  have hsf : strfDates ⟨y, 1, 1⟩
      (ordinal ⟨y + 1, 1, 1⟩ - ordinal ⟨y, 1, 1⟩) =
      some ((List.range (ordinal ⟨y + 1, 1, 1⟩ - ordinal ⟨y, 1, 1⟩)).map
        (fun i => dateStr (addDays i ⟨y, 1, 1⟩))) :=
    strfDates_eq (fun i hi => by omega)
  simp only [hparse, h1, h2, hsf]

lemma gdfp_w_eval {s : String} {y w : Nat}
    (hsplit : (pySplit s '-').map pyInt = [some y, some w])
    (hy1 : 1 ≤ y) (hy2 : y ≤ 9998) (hw1 : 1 ≤ w) (hw2 : w ≤ 52) :
    get_dates_for_period "w" s =
      .ok ((List.range 7).map
        (fun i => dateStr (addDays i (addDays (7 * (w - 1)) (isoweek1monday y))))) := by
  unfold get_dates_for_period
  rw [if_neg (by decide), if_pos rfl]
  have hiso : fromisocalendarMonday y w =
      some (addDays (7 * (w - 1)) (isoweek1monday y)) := by
    unfold fromisocalendarMonday
    rw [if_pos ⟨hy1, by omega⟩, if_pos ⟨hw1, Or.inl hw2⟩]
  obtain ⟨-, hval, hub⟩ := isoweek1monday_props y hy1
  obtain ⟨hordw, -⟩ := ord_addDays (7 * (w - 1)) hval
  have hb := dBY_le_9998 hy2
  have hsf : strfDates (addDays (7 * (w - 1)) (isoweek1monday y)) 7 =
      some ((List.range 7).map
        (fun i => dateStr (addDays i (addDays (7 * (w - 1)) (isoweek1monday y))))) :=
    strfDates_eq (fun i hi => by omega)
  simp only [hsplit, hiso, hsf]

lemma mkDate?_first {y m : Nat} (hy1 : 1 ≤ y) (hy2 : y ≤ 9999) (hm1 : 1 ≤ m)
    (hm12 : m ≤ 12) : mkDate? y m 1 = some ⟨y, m, 1⟩ := by
  unfold mkDate?
  rw [if_pos ⟨hy1, hy2, hm1, hm12, le_refl 1, daysInMonth_pos y m⟩]

set_option maxRecDepth 200000 in
/-- C6: `get_dates_for_period` expands a period into its calendar dates.
`d` echoes the single date; `w` yields the 7 consecutive dates starting at
the Monday (`weekday = (ordinal + 6) % 7 = 0`) of the requested ISO week,
so day `i` has weekday `i` (Monday through Sunday); `m` yields every date of
the calendar month in order (`28–31` of them, leap-aware, e.g. 29 for
`2024-02`); `y` yields every date of the calendar year month by month
(365 or 366, e.g. 365 for `2023`); an unrecognized period yields `[]`.
(Ranges are restricted to what `datetime.date` accepts: for `m`/`y` the
next-month/next-year construction caps the year at 9998, and for `w` the
year is capped at 9998 because at the very edge the comprehension overflows:
week 52 of 9999 starts at 9999-12-27 and `+ timedelta(5)` passes `date.max`,
raising `OverflowError` — the third conjunct shows that raise.  Week 53 of
a long ISO year is also accepted by the code.) -/
theorem C6_expand_period :
    (∀ s : String, get_dates_for_period "d" s = .ok [s]) ∧
    (∀ (s : String) (y w : Nat),
        (pySplit s '-').map pyInt = [some y, some w] →
        1 ≤ y → y ≤ 9998 → 1 ≤ w → w ≤ 52 →
        get_dates_for_period "w" s =
          .ok ((List.range 7).map (fun i =>
            dateStr (addDays i (addDays (7 * (w - 1)) (isoweek1monday y))))) ∧
        ((List.range 7).map (fun i =>
            dateStr (addDays i (addDays (7 * (w - 1)) (isoweek1monday y))))).length = 7 ∧
        (∀ i, i < 7 →
          (ordinal (addDays i (addDays (7 * (w - 1)) (isoweek1monday y))) + 6) % 7
            = i)) ∧
    get_dates_for_period "w" "9999-52" = .error () ∧
    (∀ (s : String) (y m : Nat),
        (pySplit s '-').map pyInt = [some y, some m] →
        1 ≤ y → y ≤ 9998 → 1 ≤ m → m ≤ 12 →
        get_dates_for_period "m" s = .ok (monthDates y m) ∧
        (monthDates y m).length = daysInMonth y m) ∧
    (∀ (s : String) (y : Nat),
        pyInt s = some y → 1 ≤ y → y ≤ 9998 →
        get_dates_for_period "y" s = .ok (yearDates y) ∧
        (yearDates y).length = 365 + (if isLeap y then 1 else 0)) ∧
    (∀ p s : String, p ≠ "d" → p ≠ "w" → p ≠ "m" → p ≠ "y" →
        get_dates_for_period p s = .ok []) ∧
    (get_dates_for_period "m" "2024-02").map List.length = .ok 29 ∧
    (get_dates_for_period "y" "2023").map List.length = .ok 365 := by
  refine ⟨?_, ?_, ?_, ?_, ?_, ?_, ?_, ?_⟩
  · intro s
    rfl
  · intro s y w hsplit hy1 hy2 hw1 hw2
    exact ⟨gdfp_w_eval hsplit hy1 hy2 hw1 hw2, by simp,
      monday_weekdays y w hy1⟩
  · have hmon : isoweek1monday 9999 = ⟨9999, 1, 4⟩ := by decide
    have hval : validDate (⟨9999, 1, 4⟩ : Date) := by decide
    have hord : ordinal (addDays (7 * (52 - 1)) (⟨9999, 1, 4⟩ : Date)) =
        3652055 := by
      rw [(ord_addDays (7 * (52 - 1)) hval).1]
      decide
    have hiso : fromisocalendarMonday 9999 52 =
        some (addDays (7 * (52 - 1)) (isoweek1monday 9999)) := by
      unfold fromisocalendarMonday
      rw [if_pos ⟨by norm_num, by norm_num⟩,
        if_pos ⟨by norm_num, Or.inl (by norm_num)⟩]
    have hsf : strfDates (addDays (7 * (52 - 1)) (isoweek1monday 9999)) 7 =
        Option.none := by
      rw [hmon]
      exact @strfDates_none (addDays (7 * (52 - 1)) ⟨9999, 1, 4⟩) 7 5
        (by norm_num) (by rw [hord]; norm_num)
    have hsplit : (pySplit "9999-52" '-').map pyInt =
        [some 9999, some 52] := by rfl
    unfold get_dates_for_period
    rw [if_neg (by decide), if_pos rfl]
    simp only [hsplit, hiso, hsf]
  · intro s y m hsplit hy1 hy2 hm1 hm12
    have h1 := mkDate?_first hy1 (by omega) hm1 hm12
    have h2 := @mkDate?_first (y + m / 12) (m % 12 + 1)
      (by omega) (by omega) (by omega) (by omega)
    have hmax := ordinal_le_max
      (@valid_month_first (y + m / 12) (m % 12 + 1)
        (by omega) (by omega) (by omega))
      (by show y + m / 12 ≤ 9999; omega)
    constructor
    · rw [gdfp_m_eval hsplit h1 h2 hmax, ord_diff_month hy1 hm1 hm12,
        month_block (valid_month_first hy1 hm1 hm12)]
    · simp [monthDates]
  · intro s y hparse hy1 hy2
    have h1 := mkDate?_first hy1 (by omega) (le_refl 1) (by norm_num)
    have h2 := @mkDate?_first (y + 1) 1
      (by omega) (by omega) (le_refl 1) (by norm_num)
    have hmax := ordinal_le_max
      (@valid_month_first (y + 1) 1 (by omega) (by omega) (by omega))
      (by show y + 1 ≤ 9999; omega)
    constructor
    · rw [gdfp_y_eval hparse h1 h2 hmax, ord_diff_year hy1, year_dates_eq hy1]
    · rw [← year_dates_eq hy1]
      simp
  · intro p s hd hw hm hy
    unfold get_dates_for_period
    rw [if_neg hd, if_neg hw, if_neg hm, if_neg hy]
  · rfl
  · rfl

/-- Witness for C6 at concrete inputs: ISO week 5 of 2024, February 2024,
year 2023, and an unrecognized period. -/
theorem C6_witness :
    get_dates_for_period "w" "2024-05" =
      .ok ((List.range 7).map (fun i =>
        dateStr (addDays i (addDays (7 * (5 - 1)) (isoweek1monday 2024))))) ∧
    get_dates_for_period "m" "2024-02" = .ok (monthDates 2024 2) ∧
    get_dates_for_period "y" "2023" = .ok (yearDates 2023) ∧
    get_dates_for_period "q" "2024" = .ok [] :=
  ⟨(C6_expand_period.2.1 "2024-05" 2024 5 (by rfl) (by norm_num) (by norm_num)
      (by norm_num) (by norm_num)).1,
   (C6_expand_period.2.2.2.1 "2024-02" 2024 2 (by rfl) (by norm_num)
      (by norm_num) (by norm_num) (by norm_num)).1,
   (C6_expand_period.2.2.2.2.1 "2023" 2023 (by rfl) (by norm_num)
      (by norm_num)).1,
   C6_expand_period.2.2.2.2.2.1 "q" "2024" (by decide) (by decide) (by decide)
     (by decide)⟩

/-! ## The `/top-users` endpoint (src/web/main.py, `get_top_users`) -/

/-- `f"temp:top:{period}:{date}"` — the ephemeral union key.  It is a pure
function of period and date: there is no per-call nonce. -/
def tempKey (period date : String) : String :=
  "temp:top:" ++ period ++ ":" ++ date

/-- `ZUNIONSTORE dest keys AGGREGATE SUM`: members of all source sets with
summed scores; Redis removes `dest` when the result is empty. -/
def zunionstorePure (st : RedisState) (dest : String) (keys : List String) :
    RedisState :=
  let union := keys.foldl
    (fun acc k =>
      ((st.zsets k).getD []).foldl
        (fun acc2 p =>
          match alookup acc2 p.1 with
          | some s => aupsert acc2 p.1 (s + p.2)
          | Option.none => acc2 ++ [p])
        acc)
    []
  { st with zsets := fun k' =>
      if k' = dest then
        (match union with | [] => Option.none | l => some l)
      else st.zsets k' }

/-- Insert into a list sorted by descending score (ties: descending member,
Redis's `ZREVRANGE` order). -/
def insertDesc (x : String × ℚ) : List (String × ℚ) → List (String × ℚ)
  | [] => [x]
  | y :: rest =>
    if x.2 > y.2 ∨ (x.2 = y.2 ∧ y.1 ≤ x.1) then x :: y :: rest
    else y :: insertDesc x rest

/-- Redis index range `[start, stop]` with negative indices from the end. -/
def redisSlice {α : Type} (l : List α) (start stop : Int) : List α :=
  let n : Int := l.length
  let s := max (if start < 0 then n + start else start) 0
  let e := min (if stop < 0 then n + stop else stop) (n - 1)
  if e < s then [] else (l.drop s.toNat).take (e - s + 1).toNat

/-- `ZREVRANGE key start stop WITHSCORES`. -/
def zrevrangePure (st : RedisState) (key : String) (start stop : Int) :
    List (String × ℚ) :=
  redisSlice (((st.zsets key).getD []).foldr insertDesc []) start stop

/-- `HGET key field` as a number (`none` when absent). -/
def hgetOpt (st : RedisState) (k f : String) : Option ℚ :=
  (st.hashes k).bind (fun l => alookup l f)

/-- The `period == "d"` branch of `get_top_users`: one `ZREVRANGE` (call 0 of
the failure schedule), then one `HGET` per returned user (calls 1..); the
reads mutate nothing, so a scheduled failure anywhere in the loop yields the
same observable 500 with the state unchanged. -/
def topUsersDaily (fs : Nat → Bool) (st : RedisState) (date : String) (n : Int) :
    RedisState × Except Unit (List (String × ℚ × ℚ)) :=
  if fs 0 then (st, .error ()) else
  let tops := zrevrangePure st ("daily:" ++ date) 0 (n - 1)
  if (List.range tops.length).any (fun j => fs (1 + j)) then (st, .error ())
  else
    (st, .ok (tops.map (fun p =>
      (p.1, (hgetOpt st ("user:" ++ p.1 ++ ":" ++ date) "order_count").getD 0,
        p.2))))

/-- The multi-day branch of `get_top_users`: `ZUNIONSTORE` into the temp key
(call 0), `ZREVRANGE` over it (call 1), `DEL` of the temp key (call 2), then
one `HGET` per user per date (calls 3..). -/
def topUsersMulti (fs : Nat → Bool) (st : RedisState) (period date : String)
    (n : Int) (dates : List String) :
    RedisState × Except Unit (List (String × ℚ × ℚ)) :=
  if fs 0 then (st, .error ()) else
  let st1 := zunionstorePure st (tempKey period date)
    (dates.map (fun d => "daily:" ++ d))
  if fs 1 then (st1, .error ()) else
  let tops := zrevrangePure st1 (tempKey period date) 0 (n - 1)
  if fs 2 then (st1, .error ()) else
  let st2 := zdel st1 (tempKey period date)
  if (List.range (tops.length * dates.length)).any (fun j => fs (3 + j)) then
    (st2, .error ())
  else
    (st2, .ok (tops.map (fun p =>
      (p.1, (dates.map (fun d =>
          (hgetOpt st2 ("user:" ++ p.1 ++ ":" ++ d) "order_count").getD 0)).sum,
        p.2))))

/-- Result of one `/top-users` call: the store state when the handler
returns, the response (`.error ()` is the catch-all 500, which the empty-date
400 also turns into), and — as instrumentation for the key-collision claim —
the ephemeral key the call computed (assigned in the multi-day branch before
any Redis call, exactly like `temp_key` in the source). -/
structure TopUsersOut : Type where
  state : RedisState
  result : Except Unit (List (String × ℚ × ℚ))
  tempKeyUsed : Option String

/-- Shallow embedding of the `/top-users` handler `get_top_users`. -/
def get_top_users (fs : Nat → Bool) (st : RedisState) (period date : String)
    (n : Int) : TopUsersOut :=
  match get_dates_for_period period date with
  | .error _ => ⟨st, .error (), Option.none⟩
  | .ok [] => ⟨st, .error (), Option.none⟩
  | .ok (d0 :: rest) =>
    if period = "d" then
      let r := topUsersDaily fs st date n
      ⟨r.1, r.2, Option.none⟩
    else
      let r := topUsersMulti fs st period date n (d0 :: rest)
      ⟨r.1, r.2, some (tempKey period date)⟩

lemma zsets_zdel_same (st : RedisState) (k : String) :
    (zdel st k).zsets k = Option.none := by
  simp [zdel]

/-- C7 (amended): on every call that returns successfully the multi-day
branch has already deleted its ephemeral union key, so no residual temp key
remains; but the deletion is not failure-protected (there is no
`try/finally`), so a store failure between creating and deleting the key —
the counterexample — leaves it behind. -/
theorem C7_temp_key_deleted_amended :
    ∀ (fs : Nat → Bool) (st : RedisState) (p d : String) (n : Int),
      p ≠ "d" → isOkE (get_top_users fs st p d n).result = true →
      (get_top_users fs st p d n).state.zsets (tempKey p d) = Option.none := by
  intro fs st p d n hp
  cases hgd : get_dates_for_period p d with
  | error e => simp [get_top_users, hgd, isOkE]
  | ok l =>
    cases l with
    | nil => simp [get_top_users, hgd, isOkE]
    | cons d0 rest =>
      simp only [get_top_users, hgd]
      rw [if_neg hp]
      unfold topUsersMulti
      by_cases h0 : fs 0
      · rw [if_pos h0]
        intro hok
        simp [isOkE] at hok
      · rw [if_neg h0]
        by_cases h1 : fs 1
        · rw [if_pos h1]
          intro hok
          simp [isOkE] at hok
        · rw [if_neg h1]
          by_cases h2 : fs 2
          · rw [if_pos h2]
            intro hok
            simp [isOkE] at hok
          · rw [if_neg h2]
            intro _
            split <;> simp [zdel]

/-- A store holding one order of `U1` on 2024-01-29 (a date inside ISO week
5 of 2024), so the union built for `w`/`2024-05` is non-empty. -/
def seedSt : RedisState :=
  { hashes := fun _ => Option.none,
    zsets := fun k =>
      if k = "daily:2024-01-29" then some [("U1", 10)] else Option.none }

set_option maxRecDepth 100000 in
/-- C7 counterexample: with the `ZREVRANGE` after the union failing (call
index 1), the handler returns a 500 and the ephemeral key
`temp:top:w:2024-05` is left in the store — the claim's "deleted regardless
of success or failure" is false on the code. -/
theorem C7_counterexample :
    ((get_top_users (fun k => k == 1) seedSt "w" "2024-05" 10).state.zsets
      (tempKey "w" "2024-05")).isSome = true ∧
    isOkE (get_top_users (fun k => k == 1) seedSt "w" "2024-05" 10).result
      = false := by
  exact ⟨by rfl, by rfl⟩

set_option maxRecDepth 100000 in
/-- Witness for C7 (amended): a clean multi-day call leaves no temp key. -/
theorem C7_witness :
    (get_top_users (fun _ => false) emptyRedis "w" "2024-05" 10).state.zsets
      (tempKey "w" "2024-05") = Option.none :=
  C7_temp_key_deleted_amended (fun _ => false) emptyRedis "w" "2024-05" 10
    (by decide) (by rfl)

/-- C8 (amended): the ephemeral union key is a pure function of period and
date — `temp:top:{period}:{date}` with no per-call component — so every two
invocations with the same period and date use the *same* key (they can
collide when concurrent), while calls with the same period and different
dates use different keys. -/
theorem C8_temp_key_deterministic_amended :
    (∀ (fs fs' : Nat → Bool) (st st' : RedisState) (p d : String) (n n' : Int),
        (get_top_users fs st p d n).tempKeyUsed =
          (get_top_users fs' st' p d n').tempKeyUsed) ∧
    (∀ (fs : Nat → Bool) (st : RedisState) (p d : String) (n : Int)
        (d0 : String) (rest : List String),
        p ≠ "d" → get_dates_for_period p d = .ok (d0 :: rest) →
        (get_top_users fs st p d n).tempKeyUsed = some (tempKey p d)) ∧
    (∀ p d d' : String, tempKey p d = tempKey p d' ↔ d = d') := by
  refine ⟨?_, ?_, ?_⟩
  · intro fs fs' st st' p d n n'
    cases hgd : get_dates_for_period p d with
    | error e => simp [get_top_users, hgd]
    | ok l =>
      cases l with
      | nil => simp [get_top_users, hgd]
      | cons d0 rest =>
        by_cases hp : p = "d"
        · subst hp
          simp [get_top_users, hgd]
        · simp [get_top_users, hgd, hp]
  · intro fs st p d n d0 rest hp hgd
    simp only [get_top_users, hgd]
    rw [if_neg hp]
  · intro p d d'
    constructor
    · intro h
      unfold tempKey at h
      have hd := congrArg String.data h
      rw [String.data_append, String.data_append] at hd
      exact String.ext (List.append_cancel_left hd)
    · intro h
      rw [h]

set_option maxRecDepth 100000 in
/-- C8 counterexample: two distinct invocations (different store states,
failure schedules and `n`) with the same period and date use the same
ephemeral key `temp:top:w:2024-05` — the claimed per-call distinctness is
false on the code. -/
theorem C8_counterexample :
    (get_top_users (fun _ => false) emptyRedis "w" "2024-05" 10).tempKeyUsed =
      some (tempKey "w" "2024-05") ∧
    (get_top_users (fun k => k == 1) seedSt "w" "2024-05" 3).tempKeyUsed =
      some (tempKey "w" "2024-05") :=
  ⟨by rfl, by rfl⟩

set_option maxRecDepth 100000 in
/-- Witness for C8 (amended) at a concrete multi-day call. -/
theorem C8_witness :
    (get_top_users (fun _ => false) emptyRedis "w" "2024-05" 10).tempKeyUsed =
      some (tempKey "w" "2024-05") ∧
    (tempKey "w" "2024-05" = tempKey "w" "2024-06" ↔ "2024-05" = "2024-06") :=
  ⟨C8_temp_key_deterministic_amended.2.1 (fun _ => false) emptyRedis "w"
      "2024-05" 10 "2024-01-29"
      ["2024-01-30", "2024-01-31", "2024-02-01", "2024-02-02", "2024-02-03",
       "2024-02-04"] (by decide) (by rfl),
   C8_temp_key_deterministic_amended.2.2 "w" "2024-05" "2024-06"⟩
